import Mathlib

/-!
# Verification of the `BuildWorkfile` subsystem of `ayon-core`

Shallow embedding of `src/client/ayon_core/pipeline/workfile/build_workfile.py`
(class `BuildWorkfile`).  External collaborators (the representation store,
the loader registry and the `load_container` entry point) are modelled per the
specification's external-interface contracts; everything of the builder itself
is translated from the Python source.

Modelling conventions:
* Python `dict`s are association lists (`PyDict`) with insertion-order
  semantics: assignment updates an existing key in place, otherwise appends.
* Python `str` ids (AYON entity ids) are Lean `String`s.
* Optional / possibly-missing mapping fields use `Option` or the empty list
  for falsy values, matching the `if not x:` checks of the source.
* Exceptions raised by a loader are values of `PyExc`; Python `==` between an
  exception instance and an exception class (the comparison on line 606 of the
  source) is embedded by `pyEq` on `PyObject`, CPython's default identity
  equality for objects that do not override `__eq__`.
-/

namespace AyonBuildWorkfile

/-! ## Python dictionary model -/

/-- A Python `dict` with insertion-order iteration: an association list. -/
abbrev PyDict (κ : Type) (ν : Type) := List (κ × ν)

/-- `d[k]` / `d.get(k)`: first (and, for dicts built by `dictSet`, only)
binding of key `k`. -/
def dictGet [DecidableEq κ] : PyDict κ ν → κ → Option ν
  | [], _ => none
  | (k', v) :: rest, k => if k' = k then some v else dictGet rest k

/-- `d[k] = v`: update in place when the key exists, append otherwise
(Python dicts preserve insertion order). -/
def dictSet [DecidableEq κ] : PyDict κ ν → κ → ν → PyDict κ ν
  | [], k, v => [(k, v)]
  | (k', v') :: rest, k, v =>
      if k' = k then (k, v) :: rest else (k', v') :: dictSet rest k v

/-- `k in d` (Python key-membership test). -/
def dictContains [DecidableEq κ] (d : PyDict κ ν) (k : κ) : Bool :=
  (dictGet d k).isSome

/-- `list(d.keys())`. -/
def dictKeys (d : PyDict κ ν) : List κ := d.map Prod.fst

/-- `list(d.values())`. -/
def dictValues (d : PyDict κ ν) : List ν := d.map Prod.snd

/-- `d.pop(k)`: the dictionary with binding `k` removed. -/
def dictPop [DecidableEq κ] : PyDict κ ν → κ → PyDict κ ν
  | [], _ => []
  | (k', v') :: rest, k =>
      if k' = k then rest else (k', v') :: dictPop rest k

/-- `collections.defaultdict(list)`-style `d[k].append(x)`. -/
def ddAppend [DecidableEq κ] (d : PyDict κ (List ν)) (k : κ) (x : ν) :
    PyDict κ (List ν) :=
  match dictGet d k with
  | none => dictSet d k [x]
  | some xs => dictSet d k (xs ++ [x])

/-! ## CPython object identity equality

Needed for line 606 of the source, `if exc == IncompatibleLoaderError:`,
which compares a caught exception *instance* with an exception *class*.
Neither operand overrides `__eq__`, so CPython falls back to identity
comparison; an instance and a class object are always distinct objects. -/

/-- The two kinds of Python objects that appear in the comparison on
line 606 of the source: exception instances and (exception) class objects. -/
inductive PyObject where
  | excInstance (cls : String) (objId : Nat)
  | classObject (cls : String)
deriving DecidableEq

/-- CPython `==` for objects whose classes do not override `__eq__`:
identity comparison.  Two references are equal only when they denote the
same object; an exception instance is never the same object as a class. -/
def pyEq : PyObject → PyObject → Bool
  | .excInstance c i, .excInstance c' i' => c = c' && i = i'
  | .classObject c, .classObject c' => c = c'
  | _, _ => false

/-- An exception value raised by a loader: its class name and the identity
of the instance object. -/
structure PyExc where
  cls : String
  objId : Nat
deriving DecidableEq

/-! ## Regular expressions (`re.match` as used by the name filters)

`_prepare_profile_for_products` filters product names with
`re.match(pattern, name)`: the pattern must match a *prefix* of the name,
anchored at position 0 (not necessarily the full name).  Patterns are
represented as parsed regex syntax trees; the fragment below covers the
constructs exercised by the configuration patterns of the specification
(literals, `.`, postfix `*`, leading `^`). -/

inductive Regex where
  | eps
  | chr (c : Char)
  | dot
  | bol
  | seq (a b : Regex)
  | star (a : Regex)
deriving DecidableEq

/-- Iterated application of one regex step for `star`: all reachable match
states after any number of iterations, where each iteration must consume at
least one character (iterations consuming nothing add no new states). -/
def starRem (f : Bool × List Char → List (Bool × List Char)) :
    Nat → Bool × List Char → List (Bool × List Char)
  | 0, st => [st]
  | n + 1, st =>
      st :: ((f st).filter (fun t => t.2.length < st.2.length)).flatMap
        (starRem f n)

/-- All match states `(atStart, remaining)` reachable by matching the regex
against a prefix of the remaining input.  The `Bool` records whether we are
still at the start of the subject (for `^`). -/
def remainders : Regex → Bool × List Char → List (Bool × List Char)
  | .eps, st => [st]
  | .chr _, (_, []) => []
  | .chr c, (_, x :: xs) => if x = c then [(false, xs)] else []
  | .dot, (_, []) => []
  | .dot, (_, _ :: xs) => [(false, xs)]
  | .bol, st => if st.1 then [st] else []
  | .seq a b, st => (remainders a st).flatMap (fun st' => remainders b st')
  | .star a, st => starRem (fun st' => remainders a st') (st.2.length + 1) st

/-- `re.match(pattern, s)` is truthy: the pattern matches some prefix of
`s`, anchored at the start. -/
def pyReMatch (r : Regex) (s : String) : Bool :=
  !(remainders r (true, s.toList)).isEmpty

/-- `re.fullmatch(pattern, s)` is truthy: the pattern matches all of `s`.
(Not used by the source; stated only to contrast with `pyReMatch`.) -/
def pyReFullmatch (r : Regex) (s : String) : Bool :=
  (remainders r (true, s.toList)).any (fun st => st.2.isEmpty)

/-- Literal-string regex: the concatenation of its characters. -/
def reStr (s : String) : Regex :=
  s.toList.foldr (fun c acc => .seq (.chr c) acc) .eps

/-- Python `str.lower()` (character-wise lowering; the names and types
handled by the builder are ASCII). -/
def pyLower (s : String) : String := ⟨s.data.map Char.toLower⟩

/-! ## Data model (entities of the representation store and configuration) -/

/-- A folder/asset document.  `tasks` embeds
`asset_doc["data"]["tasks"]`: task name ↦ optional task type. -/
structure AssetDoc where
  _id : String
  name : String
  tasks : PyDict String (Option String)
deriving DecidableEq

/-- A product (subset) document.  `family`/`families` embed
`subset_doc["data"].get("family")` / `.get("families")`; a missing or empty
`families` field is the empty list (both are falsy in the source). -/
structure SubsetDoc where
  _id : String
  name : String
  parent : String
  family : Option String
  families : List String
deriving DecidableEq

/-- A version document (`parent` is the product id). -/
structure VersionDoc where
  _id : String
  parent : String
deriving DecidableEq

/-- A representation document (`parent` is the version id). -/
structure RepreDoc where
  _id : String
  name : String
  parent : String
deriving DecidableEq

/-- A loader plugin as seen by the builder: its `__name__` and `enabled`
flag. -/
structure LoaderPlugin where
  name : String
  enabled : Bool
deriving DecidableEq

/-- A container returned by a successful `load_container` call. -/
structure Container where
  loaderName : String
  repreId : String
  productName : String
deriving DecidableEq

/-- A build profile record.  The two `_lowered` fields are the caches that
`_filter_build_profiles` attaches to a valid profile; they are empty on a
raw (unfiltered) profile.  Name-filter patterns are stored as parsed regex
syntax trees (the source stores their concrete syntax and compiles it with
`re.compile`). -/
structure Profile where
  loaders : List String
  product_types : List String
  repre_names : List String
  product_name_filters : List Regex
  product_types_lowered : List String
  repre_names_lowered : List String
deriving DecidableEq

/-- One entry of `workfile_builder.profiles`: task filters plus the two
profile pools (`current_context`, `linked_assets`).  This is the record
`self.build_presets` holds after `filter_profiles`. -/
structure TaskPreset where
  task_types : List String
  tasks : List String
  current_context : List Profile
  linked_assets : List Profile
deriving DecidableEq

/-- Instrumentation: one `load_container` invocation made by the load loop. -/
structure Attempt where
  productId : String
  loaderName : String
  repreName : String
deriving DecidableEq

/-- Instrumentation: the log records emitted by the `except` branch of the
load loop (lines 606-616 of the source). -/
inductive LoadLog where
  | incompatibleInfo (loaderName repreName : String)
  | unexpectedError (excCls : String)
deriving DecidableEq

/-- State threaded through the ordered load loop: the accumulated
containers, the instrumentation, and the per-product `is_loaded` flag. -/
structure LoadState where
  containers : List Container
  attempts : List Attempt
  logs : List LoadLog
  is_loaded : Bool
deriving DecidableEq

/-- The `{"subset_doc":…, "version": {"version_doc":…, "repres": […]}}`
record of `_collect_last_version_repres`' output, flattened. -/
structure SubsetData where
  subset_doc : SubsetDoc
  version_doc : VersionDoc
  repres : List RepreDoc
deriving DecidableEq

/-- One folder's entry of `_collect_last_version_repres`' output. -/
structure AssetDocData where
  asset_doc : AssetDoc
  subsets : PyDict String SubsetData
deriving DecidableEq

/-- One element of `build_workfile`'s result list. -/
structure LoadedData where
  asset_doc : AssetDoc
  containers : List Container
deriving DecidableEq

/-- Instrumentation: one batched representation-store query issued by
`_collect_last_version_repres`, with the ids it is keyed by. -/
inductive QueryEvent where
  | subsetsQuery (asset_ids : List String)
  | lastVersionsQuery (product_ids : List String)
  | represQuery (version_ids : List String)
deriving DecidableEq

/-! ## External collaborators

The representation store, settings source, context accessors and loader
registry are external to the subsystem (spec §6).  They are modelled as an
environment: the store as tables with the query semantics of its contract,
the context accessors as plain fields, `load_container` as a fallible
function chosen by the environment. -/

structure BuildEnv where
  project_name : String
  current_folder_path : String
  current_task_name : String
  asset_docs_table : List AssetDoc
  subset_docs_table : List SubsetDoc
  version_docs_table : List VersionDoc
  repre_docs_table : List RepreDoc
  linked_asset_docs : List AssetDoc
  discovered_loaders : List LoaderPlugin
  builder_profiles : List TaskPreset
  load_result : LoaderPlugin → String → String → Except PyExc Container

/-- Modelled from the spec: store query "lookup folder by name+project"
(`ayon_core.client.get_asset_by_name`, not under `src/`). -/
def get_asset_by_name (env : BuildEnv) (folder_path : String) : Option AssetDoc :=
  env.asset_docs_table.find? (fun a => a.name = folder_path)

/-- Modelled from the spec: store query "list products by folder id(s)"
(`ayon_core.client.get_subsets`, not under `src/`). -/
def get_subsets (env : BuildEnv) (asset_ids : List String) : List SubsetDoc :=
  env.subset_docs_table.filter (fun s => s.parent ∈ asset_ids)

/-- Modelled from the spec: store query "get latest version per product
id(s)" (`ayon_core.client.get_last_versions`, not under `src/`).  For each
requested product the latest entry of the version table with that parent. -/
def get_last_versions (env : BuildEnv) (product_ids : List String) :
    PyDict String VersionDoc :=
  product_ids.foldl (fun acc pid =>
    match (env.version_docs_table.filter (fun v => v.parent = pid)).getLast? with
    | none => acc
    | some v => dictSet acc pid v) []

/-- Modelled from the spec: store query "list representations by version
id(s)" (`ayon_core.client.get_representations`, not under `src/`). -/
def get_representations (env : BuildEnv) (version_ids : List String) :
    List RepreDoc :=
  env.repre_docs_table.filter (fun r => r.parent ∈ version_ids)

/-- Modelled from the spec: store query "list linked folders for a given
folder" (`ayon_core.client.get_linked_assets`, not under `src/`). -/
def get_linked_assets (env : BuildEnv) : List AssetDoc :=
  env.linked_asset_docs

/-- Modelled from the spec: `ayon_core.lib.filter_profiles` (not under
`src/`) — the Profile Matcher of spec §4.1: select the first configured
profile that applies, filtering on task type and task name (each an
exact-list-membership filter; an empty filter list constrains nothing);
`none` when no profile matches. -/
def filter_profiles (profiles : List TaskPreset) (task_type : Option String)
    (task_name : String) : Option TaskPreset :=
  profiles.find? (fun p =>
    (p.task_types.isEmpty ||
      (match task_type with
       | none => false
       | some t => p.task_types.contains t)) &&
    (p.tasks.isEmpty || p.tasks.contains task_name))

/-! ## `BuildWorkfile` — translation of the source -/

/-- The product type derived for one subset document inside
`BuildWorkfile.map_products_by_type` (lines 54-59): `data.get("family")`
when truthy, else the first entry of a truthy `data.get("families")`,
else no type (the document is skipped). -/
def productTypeOf (subset_doc : SubsetDoc) : Option String :=
  match subset_doc.family with
  | some pt => if pt = "" then subset_doc.families.head? else some pt
  | none => subset_doc.families.head?

/-- `BuildWorkfile.map_products_by_type` (lines 50-62): group the subset
documents by derived product type into a `defaultdict(list)`. -/
def map_products_by_type (subset_docs : List SubsetDoc) :
    PyDict String (List SubsetDoc) :=
  subset_docs.foldl (fun products_by_type subset_doc =>
    match productTypeOf subset_doc with
    | none => products_by_type
    | some product_type => ddAppend products_by_type product_type subset_doc) []

/-- One iteration of the `_filter_build_profiles` loop (lines 301-348):
skip a profile with falsy `loaders`, with no loader available in the
registry, with falsy `product_types` or falsy `repre_names`; otherwise
attach the lowered caches and append it to the valid profiles. -/
def filterProfileStep (loaders_by_name : PyDict String LoaderPlugin)
    (valid_profiles : List Profile) (profile : Profile) : List Profile :=
  if profile.loaders.isEmpty then valid_profiles
  else if !profile.loaders.any (fun loader_name =>
      dictContains loaders_by_name loader_name) then valid_profiles
  else if profile.product_types.isEmpty then valid_profiles
  else if profile.repre_names.isEmpty then valid_profiles
  else valid_profiles ++
    [{ profile with
        product_types_lowered := profile.product_types.map pyLower,
        repre_names_lowered := profile.repre_names.map pyLower }]

/-- `BuildWorkfile._filter_build_profiles` (lines 277-350). -/
def _filter_build_profiles (build_profiles : List Profile)
    (loaders_by_name : PyDict String LoaderPlugin) : List Profile :=
  build_profiles.foldl (filterProfileStep loaders_by_name) []

/-- The optional-name-filter test of `_prepare_profile_for_products`
(lines 392-397): at least one pattern `re.match`es the product name. -/
def passesNameFilters (filters : List Regex) (name : String) : Bool :=
  filters.any (fun pattern => pyReMatch pattern name)

/-- The combined optional-name-filter guard of
`_prepare_profile_for_products` (lines 382-400): a product passes when the
profile has no name filters (falsy `product_name_filters`) or at least one
pattern `re.match`es the product name. -/
def profileAllowsName (profile : Profile) (name : String) : Bool :=
  profile.product_name_filters.isEmpty ||
    passesNameFilters profile.product_name_filters name

/-- The inner profile scan of `_prepare_profile_for_products`
(lines 376-405) for one product type: the first profile whose lowered
product-type list contains the type processes the whole group (subject to
the optional name filters) and the scan breaks. -/
def prepareForType (profiles : List Profile) (acc : PyDict String Profile)
    (product_type : String) (subset_docs : List SubsetDoc) :
    PyDict String Profile :=
  match profiles.find? (fun profile =>
      pyLower product_type ∈ profile.product_types_lowered) with
  | none => acc
  | some profile =>
      subset_docs.foldl (fun acc subset_doc =>
        if profileAllowsName profile subset_doc.name
        then dictSet acc subset_doc._id profile
        else acc) acc

/-- `BuildWorkfile._prepare_profile_for_products` (lines 352-406). -/
def _prepare_profile_for_products (subset_docs : List SubsetDoc)
    (profiles : List Profile) : PyDict String Profile :=
  (map_products_by_type subset_docs).foldl
    (fun acc kv => prepareForType profiles acc kv.1 kv.2) []

/-- The preset-derived product ordering of `_load_containers`
(lines 536-548): iterate the presets' profiles, their `product_types`, and
the products whose `families` contain the type. -/
def product_ids_ordered (build_presets : TaskPreset)
    (products_by_id : PyDict String SubsetDoc) : List String :=
  (build_presets.current_context ++ build_presets.linked_assets).flatMap
    (fun preset => preset.product_types.flatMap
      (fun product_type => products_by_id.filterMap
        (fun kv => if product_type ∈ kv.2.families then some kv.1 else none)))

/-- The representation-ordering loop of `_load_containers`
(lines 550-561): enqueue each ordered product's representation list unless
an equal list was already enqueued. -/
def orderRepresentations (ids_ordered : List String)
    (repres_by_product_id : PyDict String (List RepreDoc)) :
    List (String × List RepreDoc) :=
  (ids_ordered.foldl (fun st opid =>
    repres_by_product_id.foldl (fun st kv =>
      if kv.2 ∈ st.2 then st
      else if opid = kv.1 then (st.1 ++ [kv], st.2 ++ [kv.2])
      else st) st)
    (([], []) : List (String × List RepreDoc) × List (List RepreDoc))).1

/-- The `repre_by_low_name` dict comprehension of `_load_containers`
(lines 573-575). -/
def buildRepreByLowName (repres : List RepreDoc) : PyDict String RepreDoc :=
  repres.foldl (fun d r => dictSet d (pyLower r.name) r) []

/-- The inner loader loop of `_load_containers` (lines 589-627): try each
configured loader in order until one load call does not raise (`is_loaded`
breaks the loop); a raised exception is compared with the
`IncompatibleLoaderError` *class* by `==` to pick the log message, and
iteration continues either way. -/
def tryLoaders (load_result : LoaderPlugin → String → String → Except PyExc Container)
    (loaders_by_name : PyDict String LoaderPlugin)
    (product_id product_name : String) (repre : RepreDoc) :
    List String → LoadState → LoadState
  | [], st => st
  | loader_name :: rest, st =>
    if st.is_loaded then st
    else
      match dictGet loaders_by_name loader_name with
      | none => tryLoaders load_result loaders_by_name product_id product_name repre rest st
      | some loader =>
        let st' := { st with
          attempts := st.attempts ++ [(⟨product_id, loader_name, repre.name⟩ : Attempt)] }
        tryLoaders load_result loaders_by_name product_id product_name repre rest
          (match load_result loader repre._id product_name with
           | .ok container =>
               { st' with containers := st'.containers ++ [container], is_loaded := true }
           | .error exc =>
               if pyEq (.excInstance exc.cls exc.objId)
                   (.classObject "IncompatibleLoaderError")
               then { st' with logs :=
                       st'.logs ++ [LoadLog.incompatibleInfo loader_name repre.name] }
               else { st' with logs := st'.logs ++ [LoadLog.unexpectedError exc.cls] })

/-- The representation-name loop of `_load_containers` (lines 578-627),
iterating over the profile's lowered representation names (`is_loaded`
breaks the loop; a name with no matching representation is skipped). -/
def tryRepreLoop (load_result : LoaderPlugin → String → String → Except PyExc Container)
    (loaders_by_name : PyDict String LoaderPlugin)
    (product_id product_name : String) (profile : Profile)
    (repre_by_low_name : PyDict String RepreDoc) :
    List String → LoadState → LoadState
  | [], st => st
  | profile_repre_name :: rest, st =>
    if st.is_loaded then st
    else
      match dictGet repre_by_low_name profile_repre_name with
      | none =>
          tryRepreLoop load_result loaders_by_name product_id product_name profile
            repre_by_low_name rest st
      | some repre =>
          tryRepreLoop load_result loaders_by_name product_id product_name profile
            repre_by_low_name rest
            (tryLoaders load_result loaders_by_name product_id product_name repre
              profile.loaders st)

/-- The per-product load attempt of `_load_containers` (lines 566-627):
build `repre_by_low_name` and run the representation loop. -/
def tryRepreNames (load_result : LoaderPlugin → String → String → Except PyExc Container)
    (loaders_by_name : PyDict String LoaderPlugin)
    (product_id product_name : String) (profile : Profile)
    (repres : List RepreDoc) (st : LoadState) : LoadState :=
  tryRepreLoop load_result loaders_by_name product_id product_name profile
    (buildRepreByLowName repres) profile.repre_names_lowered st

/-- The outer product loop of `_load_containers` (lines 566-627); the two
dict indexings `products_by_id[product_id]` and
`profiles_by_product_id[product_id]` raise `KeyError` on a missing key. -/
def loadOrdered (load_result : LoaderPlugin → String → String → Except PyExc Container)
    (products_by_id : PyDict String SubsetDoc)
    (profiles_by_product_id : PyDict String Profile)
    (loaders_by_name : PyDict String LoaderPlugin) :
    List (String × List RepreDoc) → LoadState → Except String LoadState
  | [], st => .ok st
  | (product_id, repres) :: rest, st =>
    match dictGet products_by_id product_id,
        dictGet profiles_by_product_id product_id with
    | some subset_doc, some profile =>
        loadOrdered load_result products_by_id profiles_by_product_id loaders_by_name
          rest
          (tryRepreNames load_result loaders_by_name product_id subset_doc.name
            profile repres { st with is_loaded := false })
    | _, _ => .error "KeyError"

/-- `BuildWorkfile._load_containers` (lines 505-629). -/
def _load_containers (load_result : LoaderPlugin → String → String → Except PyExc Container)
    (build_presets : TaskPreset)
    (repres_by_product_id : PyDict String (List RepreDoc))
    (products_by_id : PyDict String SubsetDoc)
    (profiles_by_product_id : PyDict String Profile)
    (loaders_by_name : PyDict String LoaderPlugin) : Except String LoadState :=
  loadOrdered load_result products_by_id profiles_by_product_id loaders_by_name
    (orderRepresentations (product_ids_ordered build_presets products_by_id)
      repres_by_product_id)
    ⟨[], [], [], false⟩

/-- The three lookup maps built by the first loop of
`load_containers_by_asset_data` (lines 442-454). -/
def productMaps (subsets : PyDict String SubsetData) :
    PyDict String SubsetDoc × PyDict String VersionDoc ×
      PyDict String (List RepreDoc) :=
  subsets.foldl (fun maps kv =>
    ( dictSet maps.1 kv.2.subset_doc._id kv.2.subset_doc,
      dictSet maps.2.1 kv.1 kv.2.version_doc,
      dictSet maps.2.2 kv.2.version_doc._id kv.2.repres )) ([], [], [])

/-- The `valid_repres_by_product_id` loop of `load_containers_by_asset_data`
(lines 469-479): for every profiled product keep the representations whose
lowered name occurs in the profile's lowered representation-name list. -/
def buildValidRepres (version_by_product_id : PyDict String VersionDoc)
    (repres_by_version_id : PyDict String (List RepreDoc)) :
    List (String × Profile) → PyDict String (List RepreDoc) →
    Except String (PyDict String (List RepreDoc))
  | [], acc => .ok acc
  | (product_id, profile) :: rest, acc =>
    match dictGet version_by_product_id product_id with
    | none => .error "KeyError"
    | some version_doc =>
      match dictGet repres_by_version_id version_doc._id with
      | none => .error "KeyError"
      | some repres =>
        buildValidRepres version_by_product_id repres_by_version_id rest
          (repres.foldl (fun acc repre =>
            if pyLower repre.name ∈ profile.repre_names_lowered
            then ddAppend acc product_id repre else acc) acc)

/-- `BuildWorkfile.load_containers_by_asset_data` (lines 408-503).
An asset-data record is a non-empty dict, hence always truthy in the
`if not asset_doc_data or …` guard. -/
def load_containers_by_asset_data
    (load_result : LoaderPlugin → String → String → Except PyExc Container)
    (build_presets : TaskPreset) (asset_doc_data : AssetDocData)
    (build_profiles : List Profile)
    (loaders_by_name : PyDict String LoaderPlugin) :
    Except String (Option LoadedData) :=
  if build_profiles.isEmpty || loaders_by_name.isEmpty then .ok none
  else
    let asset_doc := asset_doc_data.asset_doc
    let valid_profiles := _filter_build_profiles build_profiles loaders_by_name
    if valid_profiles.isEmpty then .ok none
    else
      let maps := productMaps asset_doc_data.subsets
      let products_by_id := maps.1
      let version_by_product_id := maps.2.1
      let repres_by_version_id := maps.2.2
      if products_by_id.isEmpty then .ok none
      else
        let profiles_by_product_id :=
          _prepare_profile_for_products (dictValues products_by_id) valid_profiles
        if profiles_by_product_id.isEmpty then .ok none
        else
          match buildValidRepres version_by_product_id repres_by_version_id
              profiles_by_product_id [] with
          | .error e => .error e
          | .ok valid_repres_by_product_id =>
            match _load_containers load_result build_presets
                valid_repres_by_product_id products_by_id
                profiles_by_product_id loaders_by_name with
            | .error e => .error e
            | .ok load_state =>
                .ok (some ⟨asset_doc, load_state.containers⟩)

/-- The nested-output insertion of `_collect_last_version_repres`
(lines 706-723). -/
def insertRepre (out : PyDict String AssetDocData) (repre_doc : RepreDoc)
    (version_doc : VersionDoc) (subset_doc : SubsetDoc)
    (asset_doc : AssetDoc) : PyDict String AssetDocData :=
  let folder_id := subset_doc.parent
  let product_id := version_doc.parent
  let folder_entry :=
    match dictGet out folder_id with
    | none => (⟨asset_doc, []⟩ : AssetDocData)
    | some e => e
  let subset_entry :=
    match dictGet folder_entry.subsets product_id with
    | none => (⟨subset_doc, version_doc, []⟩ : SubsetData)
    | some se => se
  let subset_entry := { subset_entry with repres := subset_entry.repres ++ [repre_doc] }
  dictSet out folder_id
    { folder_entry with subsets := dictSet folder_entry.subsets product_id subset_entry }

/-- The output-building loop of `_collect_last_version_repres`
(lines 696-723); the three dict indexings raise `KeyError` on missing
keys. -/
def collectRepres (asset_docs_by_ids : PyDict String AssetDoc)
    (subset_docs_by_id : PyDict String SubsetDoc)
    (last_version_docs_by_id : PyDict String VersionDoc) :
    List RepreDoc → PyDict String AssetDocData →
    Except String (PyDict String AssetDocData)
  | [], out => .ok out
  | repre_doc :: rest, out =>
    match dictGet last_version_docs_by_id repre_doc.parent with
    | none => .error "KeyError"
    | some version_doc =>
      match dictGet subset_docs_by_id version_doc.parent with
      | none => .error "KeyError"
      | some subset_doc =>
        match dictGet asset_docs_by_ids subset_doc.parent with
        | none => .error "KeyError"
        | some asset_doc =>
            collectRepres asset_docs_by_ids subset_docs_by_id
              last_version_docs_by_id rest
              (insertRepre out repre_doc version_doc subset_doc asset_doc)

/-- `BuildWorkfile._collect_last_version_repres` (lines 631-725), paired
with the list of batched store queries it issues, in order. -/
def _collect_last_version_repres (env : BuildEnv) (asset_docs : List AssetDoc) :
    Except String (PyDict String AssetDocData) × List QueryEvent :=
  if asset_docs.isEmpty then (.ok [], [])
  else
    let asset_docs_by_ids := asset_docs.foldl (fun d a => dictSet d a._id a) []
    let asset_ids := dictKeys asset_docs_by_ids
    let subset_docs := get_subsets env asset_ids
    let subset_docs_by_id := subset_docs.foldl (fun d s => dictSet d s._id s) []
    let product_ids := dictKeys subset_docs_by_id
    let last_version_by_product_id := get_last_versions env product_ids
    let last_version_docs_by_id :=
      (dictValues last_version_by_product_id).foldl (fun d v => dictSet d v._id v) []
    let version_ids := dictKeys last_version_docs_by_id
    let repre_docs := get_representations env version_ids
    ( collectRepres asset_docs_by_ids subset_docs_by_id last_version_docs_by_id
        repre_docs [],
      [.subsetsQuery asset_ids, .lastVersionsQuery product_ids,
        .represQuery version_ids] )

/-- The loader-discovery loop of `build_workfile` (lines 125-134): collect
enabled loaders by name, raising `KeyError` on a duplicated name. -/
def prepare_loaders : List LoaderPlugin → PyDict String LoaderPlugin →
    Except String (PyDict String LoaderPlugin)
  | [], acc => .ok acc
  | loader :: rest, acc =>
    if !loader.enabled then prepare_loaders rest acc
    else if dictContains acc loader.name then
      .error ("Duplicated loader name " ++ loader.name ++ "!")
    else prepare_loaders rest (dictSet acc loader.name loader)

/-- `BuildWorkfile.get_build_presets` (lines 229-275): `None` when the host
has no `workfile_builder.profiles`, else the profile matcher applied to the
current task's name and type. -/
def get_build_presets (env : BuildEnv) (asset_doc : AssetDoc) :
    Option TaskPreset :=
  if env.builder_profiles.isEmpty then none
  else
    let task_type := (dictGet asset_doc.tasks env.current_task_name).join
    filter_profiles env.builder_profiles task_type env.current_task_name

/-- The linked-folders loop at the end of `build_workfile` (lines 219-224). -/
def loadLinkedEntries
    (load_result : LoaderPlugin → String → String → Except PyExc Container)
    (build_presets : TaskPreset) (link_context_profiles : List Profile)
    (loaders_by_name : PyDict String LoaderPlugin) :
    List AssetDocData → List LoadedData → Except String (List LoadedData)
  | [], acc => .ok acc
  | d :: rest, acc =>
    match load_containers_by_asset_data load_result build_presets d
        link_context_profiles loaders_by_name with
    | .error e => .error e
    | .ok none =>
        loadLinkedEntries load_result build_presets link_context_profiles
          loaders_by_name rest acc
    | .ok (some loaded_data) =>
        loadLinkedEntries load_result build_presets link_context_profiles
          loaders_by_name rest (acc ++ [loaded_data])

/-- The final stage of `build_workfile` (lines 208-227): load the current
folder's containers (popping its entry from the prepared entities) and then
every remaining (linked) folder's. -/
def finishBuild
    (load_result : LoaderPlugin → String → String → Except PyExc Container)
    (build_presets : TaskPreset)
    (current_context_profiles link_context_profiles : List Profile)
    (loaders_by_name : PyDict String LoaderPlugin)
    (prepared_entities : PyDict String AssetDocData)
    (current_folder_id : Option String) : Except String (List LoadedData) :=
  let finish := fun (loaded0 : List LoadedData)
      (remaining : PyDict String AssetDocData) =>
    loadLinkedEntries load_result build_presets link_context_profiles
      loaders_by_name (dictValues remaining) loaded0
  match current_folder_id with
  | none => finish [] prepared_entities
  | some fid =>
    -- `if current_folder_id and current_folder_id in prepared_entities:`
    -- (a string id is truthy iff non-empty)
    if fid ≠ "" && dictContains prepared_entities fid then
      match dictGet prepared_entities fid with
      | none => .error "KeyError"
      | some current_context_data =>
        match load_containers_by_asset_data load_result build_presets
            current_context_data current_context_profiles loaders_by_name with
        | .error e => .error e
        | .ok none => finish [] (dictPop prepared_entities fid)
        | .ok (some loaded_data) =>
            finish [loaded_data] (dictPop prepared_entities fid)
    else finish [] prepared_entities

/-- `BuildWorkfile.build_workfile` (lines 76-227). -/
def build_workfile (env : BuildEnv) : Except String (List LoadedData) :=
  match get_asset_by_name env env.current_folder_path with
  | none => .ok []
  | some current_asset_doc =>
    match prepare_loaders env.discovered_loaders [] with
    | .error e => .error e
    | .ok loaders_by_name =>
    if loaders_by_name.isEmpty then .ok []
    else
    match get_build_presets env current_asset_doc with
    | none => .ok []
    | some build_presets =>
    let current_context_profiles := build_presets.current_context
    let link_context_profiles := build_presets.linked_assets
    if current_context_profiles.isEmpty && link_context_profiles.isEmpty then .ok []
    else
    let asset_docs :=
      (if current_context_profiles.isEmpty then [] else [current_asset_doc]) ++
      (if link_context_profiles.isEmpty then [] else get_linked_assets env)
    let current_folder_id : Option String :=
      if current_context_profiles.isEmpty then none else some current_asset_doc._id
    if asset_docs.isEmpty then .ok []
    else
    match (_collect_last_version_repres env asset_docs).1 with
    | .error e => .error e
    | .ok prepared_entities =>
        finishBuild env.load_result build_presets current_context_profiles
          link_context_profiles loaders_by_name prepared_entities
          current_folder_id

/-- `true` iff the computation did not raise. -/
def exceptOk : Except ε α → Bool
  | .ok _ => true
  | .error _ => false

/-! ## Dictionary lemmas -/

theorem dictKeys_cons {κ ν : Type} (kv : κ × ν) (rest : PyDict κ ν) :
    dictKeys (kv :: rest) = kv.1 :: dictKeys rest := rfl

section DictLemmas

variable {κ ν : Type} [DecidableEq κ]

theorem dictGet_dictSet_self (d : PyDict κ ν) (k : κ) (v : ν) :
    dictGet (dictSet d k v) k = some v := by
  induction d with
  | nil => simp [dictSet, dictGet]
  | cons kv rest ih =>
      obtain ⟨k₀, v₀⟩ := kv
      by_cases h : k₀ = k <;> simp [dictSet, dictGet, h, ih]

theorem dictGet_dictSet_ne (d : PyDict κ ν) {k k' : κ} (v : ν) (h : k' ≠ k) :
    dictGet (dictSet d k v) k' = dictGet d k' := by
  have h' : ¬ k = k' := fun he => h he.symm
  induction d with
  | nil => simp [dictSet, dictGet, h']
  | cons kv rest ih =>
      obtain ⟨k₀, v₀⟩ := kv
      by_cases h₀ : k₀ = k
      · subst h₀
        simp [dictSet, dictGet, h']
      · simp [dictSet, dictGet, h₀, ih]

theorem dictGet_isSome_of_mem_keys {d : PyDict κ ν} {k : κ}
    (h : k ∈ dictKeys d) : (dictGet d k).isSome = true := by
  induction d with
  | nil => simp [dictKeys] at h
  | cons kv rest ih =>
      obtain ⟨k₀, v₀⟩ := kv
      by_cases h₀ : k₀ = k
      · simp [dictGet, h₀]
      · rw [dictKeys_cons, List.mem_cons] at h
        rcases h with h | h
        · exact absurd h.symm h₀
        · simpa [dictGet, h₀] using ih h

theorem mem_of_dictGet_eq_some {d : PyDict κ ν} {k : κ} {v : ν}
    (h : dictGet d k = some v) : (k, v) ∈ d := by
  induction d with
  | nil => simp [dictGet] at h
  | cons kv rest ih =>
      obtain ⟨k₀, v₀⟩ := kv
      by_cases h₀ : k₀ = k
      · subst h₀
        simp [dictGet] at h
        simp [h]
      · simp [dictGet, h₀] at h
        simp [ih h]

theorem mem_keys_of_dictGet_eq_some {d : PyDict κ ν} {k : κ} {v : ν}
    (h : dictGet d k = some v) : k ∈ dictKeys d :=
  List.mem_map.mpr ⟨(k, v), mem_of_dictGet_eq_some h, rfl⟩

theorem dictGet_eq_some_of_mem {d : PyDict κ ν} {k : κ} {v : ν}
    (hnd : (dictKeys d).Nodup) (h : (k, v) ∈ d) : dictGet d k = some v := by
  induction d with
  | nil => simp at h
  | cons kv rest ih =>
      obtain ⟨k₀, v₀⟩ := kv
      rw [dictKeys_cons, List.nodup_cons] at hnd
      rcases List.mem_cons.mp h with h | h
      · cases h
        simp [dictGet]
      · have hk : ¬ k₀ = k := by
          intro he
          subst he
          exact hnd.1 (List.mem_map.mpr ⟨(k₀, v), h, rfl⟩)
        simpa [dictGet, hk] using ih hnd.2 h

theorem dict_entry_unique {d : PyDict κ ν} {k : κ} {a b : ν}
    (hnd : (dictKeys d).Nodup) (ha : (k, a) ∈ d) (hb : (k, b) ∈ d) : a = b := by
  have h1 := dictGet_eq_some_of_mem hnd ha
  have h2 := dictGet_eq_some_of_mem hnd hb
  rw [h1] at h2
  exact Option.some_inj.mp h2

theorem mem_dictSet {d : PyDict κ ν} {k : κ} {v : ν} {e : κ × ν}
    (h : e ∈ dictSet d k v) : e = (k, v) ∨ e ∈ d := by
  induction d with
  | nil => exact Or.inl (by simpa [dictSet] using h)
  | cons kv rest ih =>
      obtain ⟨k₀, v₀⟩ := kv
      by_cases h₀ : k₀ = k
      · simp [dictSet, h₀] at h
        rcases h with h | h
        · exact Or.inl (by simp [h])
        · exact Or.inr (List.mem_cons_of_mem _ h)
      · simp only [dictSet, if_neg h₀, List.mem_cons] at h
        rcases h with h | h
        · exact Or.inr (by simp [h])
        · rcases ih h with h | h
          · exact Or.inl h
          · exact Or.inr (List.mem_cons_of_mem _ h)

theorem mem_keys_dictSet {d : PyDict κ ν} {k k' : κ} {v : ν} :
    k' ∈ dictKeys (dictSet d k v) ↔ k' = k ∨ k' ∈ dictKeys d := by
  induction d with
  | nil => simp [dictSet, dictKeys]
  | cons kv rest ih =>
      obtain ⟨k₀, v₀⟩ := kv
      by_cases h₀ : k₀ = k
      · subst h₀
        have hset : dictSet ((k₀, v₀) :: rest) k₀ v = (k₀, v) :: rest := by
          simp [dictSet]
        rw [hset, dictKeys_cons, dictKeys_cons]
        simp
      · have hset : dictSet ((k₀, v₀) :: rest) k v = (k₀, v₀) :: dictSet rest k v := by
          simp [dictSet, h₀]
        rw [hset, dictKeys_cons, dictKeys_cons, List.mem_cons, List.mem_cons, ih]
        tauto

theorem keys_nodup_dictSet {d : PyDict κ ν} (k : κ) (v : ν)
    (hnd : (dictKeys d).Nodup) : (dictKeys (dictSet d k v)).Nodup := by
  induction d with
  | nil => simp [dictSet, dictKeys]
  | cons kv rest ih =>
      obtain ⟨k₀, v₀⟩ := kv
      rw [dictKeys_cons, List.nodup_cons] at hnd
      by_cases h₀ : k₀ = k
      · subst h₀
        have hset : dictSet ((k₀, v₀) :: rest) k₀ v = (k₀, v) :: rest := by
          simp [dictSet]
        rw [hset, dictKeys_cons, List.nodup_cons]
        exact ⟨hnd.1, hnd.2⟩
      · have hset : dictSet ((k₀, v₀) :: rest) k v = (k₀, v₀) :: dictSet rest k v := by
          simp [dictSet, h₀]
        rw [hset, dictKeys_cons, List.nodup_cons]
        refine ⟨?_, ih hnd.2⟩
        intro hmem
        rcases mem_keys_dictSet.mp hmem with h | h
        · exact h₀ h
        · exact hnd.1 h

theorem mem_dictPop {d : PyDict κ ν} {k : κ} {e : κ × ν}
    (h : e ∈ dictPop d k) : e ∈ d := by
  induction d with
  | nil => simp [dictPop] at h
  | cons kv rest ih =>
      obtain ⟨k₀, v₀⟩ := kv
      by_cases h₀ : k₀ = k
      · simp only [dictPop, if_pos h₀] at h
        exact List.mem_cons_of_mem _ h
      · simp only [dictPop, if_neg h₀, List.mem_cons] at h
        rcases h with h | h
        · simp [h]
        · exact List.mem_cons_of_mem _ (ih h)

theorem mem_keys_ddAppend {d : PyDict κ (List ν)} {k k' : κ} {x : ν} :
    k' ∈ dictKeys (ddAppend d k x) ↔ k' = k ∨ k' ∈ dictKeys d := by
  unfold ddAppend
  cases dictGet d k with
  | none => exact mem_keys_dictSet
  | some xs => exact mem_keys_dictSet

theorem mem_val_ddAppend {d : PyDict κ (List ν)} {k : κ} {x : ν} {e : κ × List ν}
    (he : e ∈ ddAppend d k x) {y : ν} (hy : y ∈ e.2) :
    (∃ e' ∈ d, y ∈ e'.2) ∨ y = x := by
  unfold ddAppend at he
  cases hget : dictGet d k with
  | none =>
      rw [hget] at he
      rcases mem_dictSet he with h | h
      · subst h
        simp at hy
        exact Or.inr hy
      · exact Or.inl ⟨e, h, hy⟩
  | some xs =>
      rw [hget] at he
      rcases mem_dictSet he with h | h
      · subst h
        simp at hy
        rcases hy with hy | hy
        · exact Or.inl ⟨(k, xs), mem_of_dictGet_eq_some hget, hy⟩
        · exact Or.inr hy
      · exact Or.inl ⟨e, h, hy⟩

theorem keys_nodup_ddAppend {d : PyDict κ (List ν)} (k : κ) (x : ν)
    (hnd : (dictKeys d).Nodup) : (dictKeys (ddAppend d k x)).Nodup := by
  unfold ddAppend
  cases dictGet d k with
  | none => exact keys_nodup_dictSet _ _ hnd
  | some xs => exact keys_nodup_dictSet _ _ hnd

end DictLemmas

/-! ## Load-loop characterization -/

theorem pyEq_instance_class (c : String) (i : Nat) (c' : String) :
    pyEq (.excInstance c i) (.classObject c') = false := rfl

/-- Discriminator for the info-level "incompatible loader" log record. -/
def isIncompatibleLog : LoadLog → Bool
  | .incompatibleInfo _ _ => true
  | .unexpectedError _ => false

/-- A loader name yields a successful load of `repre` iff it resolves in the
registry and the `load_container` call does not raise. -/
def loaderSucceeds (load_result : LoaderPlugin → String → String → Except PyExc Container)
    (loaders_by_name : PyDict String LoaderPlugin) (product_name : String)
    (repre : RepreDoc) (loader_name : String) : Bool :=
  match dictGet loaders_by_name loader_name with
  | none => false
  | some loader => exceptOk (load_result loader repre._id product_name)

/-- All load attempts the per-product loop can reach, in attempt order:
the profile's lowered representation names in priority order (those with a
matching representation), and for each of them the resolvable loaders in
profile order. -/
def candidateAttempts (profile : Profile) (repres : List RepreDoc)
    (loaders_by_name : PyDict String LoaderPlugin) :
    List (LoaderPlugin × RepreDoc) :=
  profile.repre_names_lowered.flatMap (fun rn =>
    match dictGet (buildRepreByLowName repres) rn with
    | none => []
    | some repre => profile.loaders.filterMap (fun ln =>
        (dictGet loaders_by_name ln).map (fun l => (l, repre))))

theorem tryLoaders_fixed (lr : LoaderPlugin → String → String → Except PyExc Container)
    (lbn : PyDict String LoaderPlugin) (pid pname : String) (repre : RepreDoc)
    (loaders : List String) (st : LoadState) (h : st.is_loaded = true) :
    tryLoaders lr lbn pid pname repre loaders st = st := by
  cases loaders with
  | nil => rfl
  | cons ln ls => simp [tryLoaders, h]

theorem tryLoaders_spec (lr : LoaderPlugin → String → String → Except PyExc Container)
    (lbn : PyDict String LoaderPlugin) (pid pname : String) (repre : RepreDoc)
    (loaders : List String) (st : LoadState) (h : st.is_loaded = false) :
    (tryLoaders lr lbn pid pname repre loaders st).is_loaded
        = loaders.any (loaderSucceeds lr lbn pname repre)
    ∧ (tryLoaders lr lbn pid pname repre loaders st).containers.length
        = st.containers.length +
          (if loaders.any (loaderSucceeds lr lbn pname repre) then 1 else 0)
    ∧ (tryLoaders lr lbn pid pname repre loaders st).logs.countP isIncompatibleLog
        = st.logs.countP isIncompatibleLog := by
  induction loaders generalizing st with
  | nil => simp [tryLoaders, h]
  | cons ln ls ih =>
      cases hget : dictGet lbn ln with
      | none =>
          have hstep : tryLoaders lr lbn pid pname repre (ln :: ls) st
              = tryLoaders lr lbn pid pname repre ls st := by
            simp [tryLoaders, h, hget]
          have hsucc : loaderSucceeds lr lbn pname repre ln = false := by
            simp [loaderSucceeds, hget]
          rw [hstep, List.any_cons, hsucc]
          simpa using ih st h
      | some loader =>
          cases hload : lr loader repre._id pname with
          | ok container =>
              have hsucc : loaderSucceeds lr lbn pname repre ln = true := by
                simp [loaderSucceeds, hget, hload, exceptOk]
              have hstep : tryLoaders lr lbn pid pname repre (ln :: ls) st
                  = tryLoaders lr lbn pid pname repre ls
                    { st with
                      attempts := st.attempts ++ [(⟨pid, ln, repre.name⟩ : Attempt)],
                      containers := st.containers ++ [container], is_loaded := true } := by
                simp [tryLoaders, h, hget, hload]
              rw [hstep, tryLoaders_fixed _ _ _ _ _ _ _ rfl, List.any_cons, hsucc]
              simp
          | error exc =>
              have hsucc : loaderSucceeds lr lbn pname repre ln = false := by
                simp [loaderSucceeds, hget, hload, exceptOk]
              have hstep : tryLoaders lr lbn pid pname repre (ln :: ls) st
                  = tryLoaders lr lbn pid pname repre ls
                    { st with
                      attempts := st.attempts ++ [(⟨pid, ln, repre.name⟩ : Attempt)],
                      logs := st.logs ++ [LoadLog.unexpectedError exc.cls] } := by
                simp [tryLoaders, h, hget, hload, pyEq_instance_class]
              rw [hstep, List.any_cons, hsucc]
              have := ih { st with
                  attempts := st.attempts ++ [(⟨pid, ln, repre.name⟩ : Attempt)],
                  logs := st.logs ++ [LoadLog.unexpectedError exc.cls] } h
              simpa [List.countP_append, isIncompatibleLog] using this

theorem tryRepreLoop_fixed (lr : LoaderPlugin → String → String → Except PyExc Container)
    (lbn : PyDict String LoaderPlugin) (pid pname : String) (profile : Profile)
    (rbl : PyDict String RepreDoc) (names : List String) (st : LoadState)
    (h : st.is_loaded = true) :
    tryRepreLoop lr lbn pid pname profile rbl names st = st := by
  cases names with
  | nil => rfl
  | cons rn rest => simp [tryRepreLoop, h]

theorem tryRepreLoop_spec (lr : LoaderPlugin → String → String → Except PyExc Container)
    (lbn : PyDict String LoaderPlugin) (pid pname : String) (profile : Profile)
    (rbl : PyDict String RepreDoc) (names : List String) (st : LoadState)
    (h : st.is_loaded = false) :
    (tryRepreLoop lr lbn pid pname profile rbl names st).is_loaded
        = names.any (fun rn =>
            match dictGet rbl rn with
            | none => false
            | some repre => profile.loaders.any (loaderSucceeds lr lbn pname repre))
    ∧ (tryRepreLoop lr lbn pid pname profile rbl names st).containers.length
        = st.containers.length +
          (if names.any (fun rn =>
              match dictGet rbl rn with
              | none => false
              | some repre => profile.loaders.any (loaderSucceeds lr lbn pname repre))
           then 1 else 0)
    ∧ (tryRepreLoop lr lbn pid pname profile rbl names st).logs.countP isIncompatibleLog
        = st.logs.countP isIncompatibleLog := by
  induction names generalizing st with
  | nil => simp [tryRepreLoop, h]
  | cons rn rest ih =>
      cases hget : dictGet rbl rn with
      | none =>
          have hstep : tryRepreLoop lr lbn pid pname profile rbl (rn :: rest) st
              = tryRepreLoop lr lbn pid pname profile rbl rest st := by
            simp [tryRepreLoop, h, hget]
          rw [hstep, List.any_cons]
          simpa [hget] using ih st h
      | some repre =>
          have hstep : tryRepreLoop lr lbn pid pname profile rbl (rn :: rest) st
              = tryRepreLoop lr lbn pid pname profile rbl rest
                  (tryLoaders lr lbn pid pname repre profile.loaders st) := by
            simp [tryRepreLoop, h, hget]
          obtain ⟨hl1, hl2, hl3⟩ := tryLoaders_spec lr lbn pid pname repre profile.loaders st h
          rw [hstep]
          cases hany : profile.loaders.any (loaderSucceeds lr lbn pname repre) with
          | true =>
              rw [hany] at hl1 hl2
              rw [tryRepreLoop_fixed _ _ _ _ _ _ _ _ hl1, List.any_cons]
              simp [hget, hany, hl1, hl2, hl3]
          | false =>
              rw [hany] at hl1 hl2
              have := ih (tryLoaders lr lbn pid pname repre profile.loaders st) hl1
              rw [List.any_cons]
              simp only [hget, hany, Bool.false_or]
              simpa [hl2, hl3] using this


theorem any_filterMap_resolve
    (lr : LoaderPlugin → String → String → Except PyExc Container)
    (lbn : PyDict String LoaderPlugin) (pname : String) (repre : RepreDoc)
    (loaders : List String) :
    ((loaders.filterMap (fun ln => (dictGet lbn ln).map (fun l => (l, repre)))).any
        (fun c => exceptOk (lr c.1 c.2._id pname)))
      = loaders.any (loaderSucceeds lr lbn pname repre) := by
  induction loaders with
  | nil => rfl
  | cons ln ls ih =>
      cases hget : dictGet lbn ln with
      | none => simp [List.filterMap_cons, hget, loaderSucceeds, ih]
      | some loader => simp [List.filterMap_cons, hget, loaderSucceeds, ih]

theorem any_candidateAttempts
    (lr : LoaderPlugin → String → String → Except PyExc Container)
    (profile : Profile) (repres : List RepreDoc)
    (lbn : PyDict String LoaderPlugin) (pname : String) :
    (candidateAttempts profile repres lbn).any
        (fun c => exceptOk (lr c.1 c.2._id pname))
      = profile.repre_names_lowered.any (fun rn =>
          match dictGet (buildRepreByLowName repres) rn with
          | none => false
          | some repre => profile.loaders.any (loaderSucceeds lr lbn pname repre)) := by
  unfold candidateAttempts
  generalize profile.repre_names_lowered = names
  induction names with
  | nil => rfl
  | cons rn rest ih =>
      rw [List.flatMap_cons, List.any_append, List.any_cons, ih]
      cases hget : dictGet (buildRepreByLowName repres) rn with
      | none => simp [hget]
      | some repre =>
          simp only [hget]
          rw [any_filterMap_resolve]

/-! ## Concrete scenario data (taken from the specification's examples) -/

/-- The profile of the C1 scenario: representation priority
`["abc", "usd"]`, loader priority `["LoaderX", "LoaderY"]`. -/
def profC1 : Profile :=
  ⟨["LoaderX", "LoaderY"], ["model"], ["abc", "usd"], [], ["model"], ["abc", "usd"]⟩

def presetC1 : TaskPreset := ⟨[], [], [profC1], []⟩

/-- A product named `charA_model` of type `model`. -/
def docC1 : SubsetDoc := ⟨"p1", "charA_model", "f1", some "model", ["model"]⟩

/-- The only existing representation of the C1 scenario: an `abc`. -/
def repreAbc : RepreDoc := ⟨"r1", "abc", "v1"⟩

def loadersXY : PyDict String LoaderPlugin :=
  [("LoaderX", ⟨"LoaderX", true⟩), ("LoaderY", ⟨"LoaderY", true⟩)]

/-- `load_container` behaviour of the C1 scenario: `LoaderX` raises,
`LoaderY` succeeds. -/
def loadXRaises : LoaderPlugin → String → String → Except PyExc Container :=
  fun l rid n =>
    if l.name = "LoaderX" then .error ⟨"RuntimeError", 7⟩ else .ok ⟨l.name, rid, n⟩

/-- `load_container` behaviour that always succeeds. -/
def loadAlwaysOk : LoaderPlugin → String → String → Except PyExc Container :=
  fun l rid n => .ok ⟨l.name, rid, n⟩

def rigProf : Profile := ⟨["LoaderY"], ["rig"], ["abc"], [], ["rig"], ["abc"]⟩

def modelProf : Profile := ⟨["LoaderY"], ["model"], ["abc"], [], ["model"], ["abc"]⟩

/-- Profile order of the C2 scenario: the rig profile before the model
profile. -/
def presetC2 : TaskPreset := ⟨[], [], [rigProf, modelProf], []⟩

def docA : SubsetDoc := ⟨"a1", "A", "f1", some "model", ["model"]⟩

def docB : SubsetDoc := ⟨"b1", "B", "f1", some "rig", ["rig"]⟩

def repA : RepreDoc := ⟨"ra", "abc", "va"⟩

def repB : RepreDoc := ⟨"rb", "abc", "vb"⟩

def loadersY : PyDict String LoaderPlugin := [("LoaderY", ⟨"LoaderY", true⟩)]

/-- A valid profile whose name filter is `[r"char.*"]`. -/
def charFilterProf : Profile :=
  ⟨["LoaderY"], ["model"], ["abc"], [.seq (reStr "char") (.star .dot)],
    ["model"], ["abc"]⟩

/-- A valid profile whose name filter is `[r"^prop"]`. -/
def propFilterProf : Profile :=
  ⟨["LoaderY"], ["model"], ["abc"], [.seq .bol (reStr "prop")],
    ["model"], ["abc"]⟩

/-! ## Claim theorems -/

/-- **C1.**  In the ordered load loop, the per-product attempt runs the
profile's representation names in priority order and, per representation,
the profile's loaders in priority order; the first non-raising load stops
all further attempts for that product, so each product contributes at most
one container.  Concretely, for representation priority `["abc", "usd"]`
and loader priority `["LoaderX", "LoaderY"]` with only an `abc`
representation existing, `LoaderX` raising and `LoaderY` succeeding,
`_load_containers` produces exactly one container, via `LoaderY`, its two
attempts are `LoaderX` then `LoaderY` on `abc`, and no attempt mentions
`usd`. -/
theorem claim_C1 :
    (∀ (lr : LoaderPlugin → String → String → Except PyExc Container)
        (lbn : PyDict String LoaderPlugin) (pid pname : String)
        (profile : Profile) (repres : List RepreDoc) (st : LoadState),
      (tryRepreNames lr lbn pid pname profile repres
          { st with is_loaded := false }).containers.length
        ≤ st.containers.length + 1)
    ∧ _load_containers loadXRaises presetC1 [("p1", [repreAbc])] [("p1", docC1)]
        [("p1", profC1)] loadersXY
      = .ok ⟨[⟨"LoaderY", "r1", "charA_model"⟩],
          [⟨"p1", "LoaderX", "abc"⟩, ⟨"p1", "LoaderY", "abc"⟩],
          [.unexpectedError "RuntimeError"], true⟩ := by
  constructor
  · intro lr lbn pid pname profile repres st
    obtain ⟨_, hlen, _⟩ := tryRepreLoop_spec lr lbn pid pname profile
      (buildRepreByLowName repres) profile.repre_names_lowered
      { st with is_loaded := false } rfl
    unfold tryRepreNames
    rw [hlen]
    simp only []
    split <;> omega
  · rfl

/-- **C2.**  The per-product attempt order is derived from the configured
profile sequence (profiles, then their declared product types, then the
matching products): for products `A` (type `model`) and `B` (type `rig`)
under profile order `[rig-profile, model-profile]`, the derived order is
`B` before `A`, and the load loop attempts (and loads) `B` before `A`. -/
theorem claim_C2 :
    product_ids_ordered presetC2 [("a1", docA), ("b1", docB)] = ["b1", "a1"]
    ∧ _load_containers loadAlwaysOk presetC2 [("a1", [repA]), ("b1", [repB])]
        [("a1", docA), ("b1", docB)] [("a1", modelProf), ("b1", rigProf)] loadersY
      = .ok ⟨[⟨"LoaderY", "rb", "B"⟩, ⟨"LoaderY", "ra", "A"⟩],
          [⟨"b1", "LoaderY", "abc"⟩, ⟨"a1", "LoaderY", "abc"⟩], [], true⟩ := by
  exact ⟨rfl, rfl⟩

/-- **C3.**  The "incompatible loader" condition is detected by comparing
the raised exception instance with the exception class by `==`, which is
never true (so the info-level incompatible log is never produced), and a
raising load attempt is non-fatal: the per-product loop succeeds exactly
when some reachable (representation, loader) candidate succeeds, the
product contributes one container in that case, and it is skipped (zero
containers) only when every candidate attempt raises. -/
theorem claim_C3 :
    (∀ (c : String) (i : Nat) (c' : String),
        pyEq (.excInstance c i) (.classObject c') = false)
    ∧ (∀ (lr : LoaderPlugin → String → String → Except PyExc Container)
        (lbn : PyDict String LoaderPlugin) (pid pname : String)
        (profile : Profile) (repres : List RepreDoc) (st : LoadState),
        (tryRepreNames lr lbn pid pname profile repres
            { st with is_loaded := false }).logs.countP isIncompatibleLog
          = st.logs.countP isIncompatibleLog
        ∧ (tryRepreNames lr lbn pid pname profile repres
              { st with is_loaded := false }).is_loaded
            = (candidateAttempts profile repres lbn).any
                (fun c => exceptOk (lr c.1 c.2._id pname))
        ∧ (tryRepreNames lr lbn pid pname profile repres
              { st with is_loaded := false }).containers.length
            = st.containers.length +
              (if (candidateAttempts profile repres lbn).any
                  (fun c => exceptOk (lr c.1 c.2._id pname)) then 1 else 0)) := by
  refine ⟨fun c i c' => rfl, fun lr lbn pid pname profile repres st => ?_⟩
  obtain ⟨hload, hlen, hcount⟩ := tryRepreLoop_spec lr lbn pid pname profile
    (buildRepreByLowName repres) profile.repre_names_lowered
    { st with is_loaded := false } rfl
  unfold tryRepreNames
  rw [any_candidateAttempts]
  exact ⟨hcount, hload, hlen⟩

/-- **C6.**  Product-name filters are tested with `re.match` (match from
start, not full match): a product named `charA_model` is assigned a profile
filtered by `r"char.*"` but not one filtered by `r"^prop"`; moreover even
the bare literal pattern `char`, which matches only a proper prefix of the
name, matches under `re.match` while not under a full match. -/
theorem claim_C6 :
    dictGet (_prepare_profile_for_products [docC1] [charFilterProf]) "p1"
        = some charFilterProf
    ∧ dictGet (_prepare_profile_for_products [docC1] [propFilterProf]) "p1" = none
    ∧ pyReMatch (.seq (reStr "char") (.star .dot)) "charA_model" = true
    ∧ pyReMatch (.seq .bol (reStr "prop")) "charA_model" = false
    ∧ pyReMatch (reStr "char") "charA_model" = true
    ∧ pyReFullmatch (reStr "char") "charA_model" = false := by
  exact ⟨rfl, rfl, by decide, by decide, by decide, by decide⟩

/-- **C8.**  `_collect_last_version_repres` on an empty folder list returns
the empty mapping, raises nothing, and performs no store queries. -/
theorem claim_C8 (env : BuildEnv) :
    _collect_last_version_repres env [] = (.ok [], []) := rfl

/-! ## C5: validity characterization of `_filter_build_profiles` -/

/-- Validity of a raw build profile in the words of spec §4.1: a non-empty
loader list with at least one loader present in the registry, a non-empty
product-type list, and a non-empty representation-name list. -/
def specValidProfile (profile : Profile)
    (loaders_by_name : PyDict String LoaderPlugin) : Bool :=
  !profile.loaders.isEmpty &&
  profile.loaders.any (fun loader_name => dictContains loaders_by_name loader_name) &&
  !profile.product_types.isEmpty &&
  !profile.repre_names.isEmpty

/-- The lowered caches attached to a kept profile. -/
def withLoweredCaches (profile : Profile) : Profile :=
  { profile with
      product_types_lowered := profile.product_types.map pyLower,
      repre_names_lowered := profile.repre_names.map pyLower }

theorem filterProfileStep_invalid {lbn : PyDict String LoaderPlugin}
    {p : Profile} (h : specValidProfile p lbn = false) (acc : List Profile) :
    filterProfileStep lbn acc p = acc := by
  unfold filterProfileStep
  unfold specValidProfile at h
  cases h1 : p.loaders.isEmpty with
  | true => simp [h1]
  | false =>
      cases h2 : p.loaders.any (fun loader_name => dictContains lbn loader_name) with
      | false => simp [h1, h2]
      | true =>
          cases h3 : p.product_types.isEmpty with
          | true => simp [h1, h2, h3]
          | false =>
              cases h4 : p.repre_names.isEmpty with
              | true => simp [h1, h2, h3, h4]
              | false =>
                  rw [h1, h2, h3, h4] at h
                  simp at h

theorem filterProfileStep_valid {lbn : PyDict String LoaderPlugin}
    {p : Profile} (h : specValidProfile p lbn = true) (acc : List Profile) :
    filterProfileStep lbn acc p = acc ++ [withLoweredCaches p] := by
  unfold filterProfileStep
  unfold specValidProfile at h
  rw [Bool.and_eq_true, Bool.and_eq_true, Bool.and_eq_true] at h
  obtain ⟨⟨⟨h1, h2⟩, h3⟩, h4⟩ := h
  rw [Bool.not_eq_eq_eq_not] at h1 h3 h4
  simp only [Bool.not_true] at h1 h3 h4
  simp [h1, h2, h3, h4, withLoweredCaches]

/-- **C5.**  `_filter_build_profiles` keeps exactly the profiles with a
non-empty loader list featuring at least one registered loader, a non-empty
product-type list and a non-empty representation-name list, and each kept
profile carries its lowered product-type and representation-name caches. -/
theorem claim_C5 (build_profiles : List Profile)
    (loaders_by_name : PyDict String LoaderPlugin) :
    _filter_build_profiles build_profiles loaders_by_name =
      (build_profiles.filter (fun p => specValidProfile p loaders_by_name)).map
        withLoweredCaches := by
  have general : ∀ (ps : List Profile) (acc : List Profile),
      ps.foldl (filterProfileStep loaders_by_name) acc
        = acc ++ (ps.filter (fun p => specValidProfile p loaders_by_name)).map
            withLoweredCaches := by
    intro ps
    induction ps with
    | nil => intro acc; simp
    | cons p rest ih =>
        intro acc
        rw [List.foldl_cons, List.filter_cons]
        cases hv : specValidProfile p loaders_by_name with
        | false => rw [filterProfileStep_invalid hv, ih]; simp
        | true => rw [filterProfileStep_valid hv, ih]; simp
  simpa using general build_profiles []

/-! ## C10: the representation-ordering loop -/

/-- Invariant of the ordering-loop state `(representations_ordered,
representations)`: enqueued entries come from `repres_by_product_id`, every
enqueued entry's representation list is recorded in the duplicate guard,
and the recorded representation lists are pairwise distinct. -/
def orderStateInv (rbp : PyDict String (List RepreDoc))
    (st : List (String × List RepreDoc) × List (List RepreDoc)) : Prop :=
  (∀ e ∈ st.1, e ∈ rbp) ∧ (∀ e ∈ st.1, e.2 ∈ st.2) ∧ (st.1.map Prod.snd).Nodup

theorem orderRep_inner_inv (rbp : PyDict String (List RepreDoc)) (opid : String)
    (l : List (String × List RepreDoc)) :
    ∀ (st : List (String × List RepreDoc) × List (List RepreDoc)),
    (∀ e ∈ l, e ∈ rbp) → orderStateInv rbp st →
    orderStateInv rbp (l.foldl (fun st kv =>
      if kv.2 ∈ st.2 then st
      else if opid = kv.1 then (st.1 ++ [kv], st.2 ++ [kv.2])
      else st) st) := by
  induction l with
  | nil => intro st _ h; exact h
  | cons hd tl ih =>
      intro st hl hinv
      rw [List.foldl_cons]
      by_cases hdup : hd.2 ∈ st.2
      · simp only [if_pos hdup]
        exact ih st (fun e he => hl e (.tail _ he)) hinv
      · by_cases hid : opid = hd.1
        · simp only [if_neg hdup, if_pos hid]
          refine ih _ (fun e he => hl e (.tail _ he)) ?_
          obtain ⟨hmem, hrec, hnd⟩ := hinv
          refine ⟨?_, ?_, ?_⟩
          · intro e he
            rcases List.mem_append.mp he with he | he
            · exact hmem e he
            · simp at he
              subst he
              exact hl _ (.head _)
          · intro e he
            rcases List.mem_append.mp he with he | he
            · exact List.mem_append.mpr (Or.inl (hrec e he))
            · simp at he
              subst he
              simp
          · rw [List.map_append, List.nodup_append]
            refine ⟨hnd, by simp, ?_⟩
            intro x hx hx'
            simp at hx'
            subst hx'
            rcases List.mem_map.mp hx with ⟨e, he, hfe⟩
            exact hdup (hfe ▸ hrec e he)
        · simp only [if_neg hdup, if_neg hid]
          exact ih st (fun e he => hl e (.tail _ he)) hinv

theorem orderRep_inv (rbp : PyDict String (List RepreDoc)) (ids : List String) :
    orderStateInv rbp ((ids.foldl (fun st opid =>
      rbp.foldl (fun st kv =>
        if kv.2 ∈ st.2 then st
        else if opid = kv.1 then (st.1 ++ [kv], st.2 ++ [kv.2])
        else st) st)
      (([], []) : List (String × List RepreDoc) × List (List RepreDoc)))) := by
  have base : orderStateInv rbp (([], []) :
      List (String × List RepreDoc) × List (List RepreDoc)) := by
    refine ⟨by simp, by simp, by simp⟩
  generalize hst : (([], []) :
      List (String × List RepreDoc) × List (List RepreDoc)) = st₀
  rw [hst] at base
  clear hst
  induction ids generalizing st₀ with
  | nil => exact base
  | cons opid rest ih =>
      rw [List.foldl_cons]
      exact ih _ (orderRep_inner_inv rbp opid rbp st₀ (fun e he => he) base)

/-- Every entry enqueued by the ordering loop is an entry of
`repres_by_product_id`. -/
theorem orderRep_entries_mem {rbp : PyDict String (List RepreDoc)}
    {ids : List String} {e : String × List RepreDoc}
    (he : e ∈ orderRepresentations ids rbp) : e ∈ rbp :=
  (orderRep_inv rbp ids).1 e he

theorem orderRep_snd_nodup (rbp : PyDict String (List RepreDoc))
    (ids : List String) :
    ((orderRepresentations ids rbp).map Prod.snd).Nodup :=
  (orderRep_inv rbp ids).2.2

theorem nodup_fst_of_mem_nodup_snd {rbp : PyDict String (List RepreDoc)}
    (hk : (dictKeys rbp).Nodup) :
    ∀ (l : List (String × List RepreDoc)), (∀ e ∈ l, e ∈ rbp) →
    (l.map Prod.snd).Nodup → (l.map Prod.fst).Nodup := by
  intro l
  induction l with
  | nil => simp
  | cons e es ih =>
      intro hmem hsnd
      rw [List.map_cons, List.nodup_cons] at hsnd ⊢
      refine ⟨?_, ih (fun x hx => hmem x (.tail _ hx)) hsnd.2⟩
      intro hfst
      rcases List.mem_map.mp hfst with ⟨e', he', hfe⟩
      obtain ⟨k, v⟩ := e
      obtain ⟨k', v'⟩ := e'
      simp at hfe
      subst hfe
      have hvv : v' = v :=
        dict_entry_unique hk (hmem _ (.tail _ he')) (hmem _ (.head _))
      exact hsnd.1 (List.mem_map.mpr ⟨(k', v'), he', hvv⟩)

/-- A concrete second product sharing `docC1`'s representation list. -/
def docP2 : SubsetDoc := ⟨"p2", "prop_model", "f1", some "model", ["model"]⟩

/-- **C10.**  The ordering loop of `_load_containers` enqueues each product
id at most once (the enqueued ids are pairwise distinct whenever the
`repres_by_product_id` keys are), its duplicate guard compares
representation lists by value, so a later-ordered product whose
representation list equals an earlier one's is skipped entirely:
concretely, with `p1` ordered before `p2` and equal representation lists,
only `p1` is enqueued, and the full load loop makes no attempt for `p2`
and produces a single container, for `p1`. -/
theorem claim_C10 :
    (∀ (ids_ordered : List String) (rbp : PyDict String (List RepreDoc)),
      (dictKeys rbp).Nodup →
      ((orderRepresentations ids_ordered rbp).map Prod.fst).Nodup)
    ∧ orderRepresentations ["p1", "p2"] [("p1", [repreAbc]), ("p2", [repreAbc])]
        = [("p1", [repreAbc])]
    ∧ _load_containers loadAlwaysOk presetC1 [("p1", [repreAbc]), ("p2", [repreAbc])]
        [("p1", docC1), ("p2", docP2)] [("p1", profC1), ("p2", profC1)] loadersXY
      = .ok ⟨[⟨"LoaderX", "r1", "charA_model"⟩], [⟨"p1", "LoaderX", "abc"⟩],
          [], true⟩ := by
  refine ⟨?_, rfl, rfl⟩
  intro ids rbp hk
  exact nodup_fst_of_mem_nodup_snd hk _ (fun e he => orderRep_entries_mem he)
    (orderRep_snd_nodup rbp ids)

/-- Witness for the hypothesis-bearing part of `claim_C10`, at the concrete
scenario input. -/
theorem claim_C10_witness :
    ((orderRepresentations ["p1", "p2"]
        [("p1", [repreAbc]), ("p2", [repreAbc])]).map Prod.fst).Nodup :=
  claim_C10.1 ["p1", "p2"] [("p1", [repreAbc]), ("p2", [repreAbc])] (by decide)

/-! ## C9: one batched query per entity level -/

theorem keys_subset_foldl_dictSet {κ ν α : Type} [DecidableEq κ]
    (kf : α → κ) (vf : α → ν) :
    ∀ (l : List α) (init : PyDict κ ν) (k : κ), k ∈ dictKeys init →
      k ∈ dictKeys (l.foldl (fun d a => dictSet d (kf a) (vf a)) init) := by
  intro l
  induction l with
  | nil => intro init k hk; exact hk
  | cons a rest ih =>
      intro init k hk
      rw [List.foldl_cons]
      exact ih _ k (mem_keys_dictSet.mpr (Or.inr hk))

theorem mem_keys_foldl_dictSet {κ ν α : Type} [DecidableEq κ]
    (kf : α → κ) (vf : α → ν) :
    ∀ (l : List α) (init : PyDict κ ν) (x : α), x ∈ l →
      kf x ∈ dictKeys (l.foldl (fun d a => dictSet d (kf a) (vf a)) init) := by
  intro l
  induction l with
  | nil => intro init x hx; simp at hx
  | cons a rest ih =>
      intro init x hx
      rw [List.foldl_cons]
      rcases List.mem_cons.mp hx with hx | hx
      · subst hx
        exact keys_subset_foldl_dictSet kf vf rest _ _
          (mem_keys_dictSet.mpr (Or.inl rfl))
      · exact ih _ x hx

/-- **C9.**  For a non-empty folder list, `_collect_last_version_repres`
issues exactly three batched store queries, one per entity level and in
level order — products keyed by all folder ids, latest versions keyed by
all product ids, representations keyed by all latest-version ids — and no
other query. -/
theorem claim_C9 (env : BuildEnv) (asset_docs : List AssetDoc)
    (hne : asset_docs ≠ []) :
    ∃ asset_ids product_ids version_ids,
      (_collect_last_version_repres env asset_docs).2 =
        [.subsetsQuery asset_ids, .lastVersionsQuery product_ids,
          .represQuery version_ids]
      ∧ (∀ d ∈ asset_docs, d._id ∈ asset_ids)
      ∧ (∀ s ∈ get_subsets env asset_ids, s._id ∈ product_ids)
      ∧ (∀ v ∈ dictValues (get_last_versions env product_ids),
          v._id ∈ version_ids) := by
  unfold _collect_last_version_repres
  rw [if_neg (by simp [hne])]
  refine ⟨_, _, _, rfl, ?_, ?_, ?_⟩
  · intro d hd
    exact mem_keys_foldl_dictSet _ _ _ _ _ hd
  · intro sdoc hs
    exact mem_keys_foldl_dictSet _ _ _ _ _ hs
  · intro v hv
    exact mem_keys_foldl_dictSet _ _ _ _ _ hv

/-- A concrete folder document for witnesses. -/
def assetW : AssetDoc := ⟨"f1", "fp", [("task", some "Modeling")]⟩

/-- A concrete environment for witnesses: one folder, one product, one
version, one representation, one enabled loader, one preset. -/
def envW : BuildEnv :=
  ⟨"proj", "fp", "task",
    [assetW],
    [docC1],
    [⟨"v1", "p1"⟩],
    [repreAbc],
    [],
    [⟨"LoaderY", true⟩],
    [⟨[], [], [⟨["LoaderY"], ["model"], ["abc"], [], [], []⟩], []⟩],
    loadAlwaysOk⟩

/-- Witness for `claim_C9` at the concrete input `envW`, `[assetW]`. -/
theorem claim_C9_witness :
    ∃ asset_ids product_ids version_ids,
      (_collect_last_version_repres envW [assetW]).2 =
        [.subsetsQuery asset_ids, .lastVersionsQuery product_ids,
          .represQuery version_ids]
      ∧ (∀ d ∈ [assetW], d._id ∈ asset_ids)
      ∧ (∀ s ∈ get_subsets envW asset_ids, s._id ∈ product_ids)
      ∧ (∀ v ∈ dictValues (get_last_versions envW product_ids),
          v._id ∈ version_ids) :=
  claim_C9 envW [assetW] (by simp)

/-! ## C4: characterization of `_prepare_profile_for_products` -/

theorem dictGet_ddAppend_self {κ ν : Type} [DecidableEq κ]
    (d : PyDict κ (List ν)) (k : κ) (x : ν) :
    dictGet (ddAppend d k x) k = some ((dictGet d k).getD [] ++ [x]) := by
  unfold ddAppend
  cases h : dictGet d k with
  | none => simp [dictGet_dictSet_self]
  | some xs => simp [dictGet_dictSet_self]

theorem dictGet_ddAppend_ne {κ ν : Type} [DecidableEq κ]
    (d : PyDict κ (List ν)) {k k' : κ} (x : ν) (h : k' ≠ k) :
    dictGet (ddAppend d k x) k' = dictGet d k' := by
  unfold ddAppend
  cases hget : dictGet d k with
  | none => exact dictGet_dictSet_ne d _ h
  | some xs => exact dictGet_dictSet_ne d _ h

theorem mppt_fold_char (docs : List SubsetDoc) :
    ∀ (acc : PyDict String (List SubsetDoc)) (k : String),
    dictGet (docs.foldl (fun products_by_type subset_doc =>
        match productTypeOf subset_doc with
        | none => products_by_type
        | some product_type => ddAppend products_by_type product_type subset_doc)
      acc) k
      = match dictGet acc k with
        | none =>
            if (docs.filter (fun d => productTypeOf d = some k)).isEmpty then none
            else some (docs.filter (fun d => productTypeOf d = some k))
        | some xs => some (xs ++ docs.filter (fun d => productTypeOf d = some k)) := by
  induction docs with
  | nil =>
      intro acc k
      cases h : dictGet acc k <;> simp [h]
  | cons d ds ih =>
      intro acc k
      rw [List.foldl_cons, List.filter_cons, ih]
      cases hpt : productTypeOf d with
      | none =>
          cases hacc : dictGet acc k with
          | none => simp [hacc]
          | some xs => simp [hacc]
      | some pt =>
          by_cases hk : pt = k
          · subst hk
            cases hacc : dictGet acc pt with
            | none => simp [hacc, dictGet_ddAppend_self]
            | some xs => simp [hacc, dictGet_ddAppend_self]
          · have hne := dictGet_ddAppend_ne acc d (fun he => hk he.symm)
            cases hacc : dictGet acc k with
            | none => simp [hacc, hne, hk]
            | some xs => simp [hacc, hne, hk]

theorem mppt_dictGet_char (docs : List SubsetDoc) (k : String) :
    dictGet (map_products_by_type docs) k
      = (if (docs.filter (fun d => productTypeOf d = some k)).isEmpty then none
         else some (docs.filter (fun d => productTypeOf d = some k))) := by
  unfold map_products_by_type
  rw [mppt_fold_char docs [] k]
  rfl

theorem mppt_keys_nodup (docs : List SubsetDoc) :
    (dictKeys (map_products_by_type docs)).Nodup := by
  unfold map_products_by_type
  have general : ∀ (l : List SubsetDoc) (acc : PyDict String (List SubsetDoc)),
      (dictKeys acc).Nodup →
      (dictKeys (l.foldl (fun products_by_type subset_doc =>
        match productTypeOf subset_doc with
        | none => products_by_type
        | some product_type => ddAppend products_by_type product_type subset_doc)
        acc)).Nodup := by
    intro l
    induction l with
    | nil => intro acc h; exact h
    | cons d ds ih =>
        intro acc h
        rw [List.foldl_cons]
        cases hpt : productTypeOf d with
        | none => simpa only [hpt] using ih acc h
        | some pt =>
            simp only [hpt]
            exact ih _ (keys_nodup_ddAppend pt d h)
  exact general docs [] (by simp [dictKeys])

/-- An entry of `map_products_by_type` holds exactly the products of its
key's derived type, in input order. -/
theorem mppt_entry_char {docs : List SubsetDoc} {k : String}
    {g : List SubsetDoc} (h : (k, g) ∈ map_products_by_type docs) :
    g = docs.filter (fun d => productTypeOf d = some k) := by
  have h1 := dictGet_eq_some_of_mem (mppt_keys_nodup docs) h
  rw [mppt_dictGet_char] at h1
  by_cases he : (docs.filter (fun d => productTypeOf d = some k)).isEmpty
  · rw [if_pos he] at h1
    exact absurd h1 (by simp)
  · rw [if_neg he] at h1
    exact (Option.some_inj.mp h1).symm

/-- The assignment fold run by `_prepare_profile_for_products` for the
chosen profile of one type group, characterized at one lookup key. -/
theorem dictGet_prepare_fold_assign (profile : Profile) (x : String) :
    ∀ (g : List SubsetDoc) (acc : PyDict String Profile),
    dictGet (g.foldl (fun acc subset_doc =>
        if profileAllowsName profile subset_doc.name
        then dictSet acc subset_doc._id profile
        else acc) acc) x
      = if g.any (fun doc => doc._id = x && profileAllowsName profile doc.name)
        then some profile
        else dictGet acc x := by
  intro g
  induction g with
  | nil => intro acc; simp
  | cons doc gs ih =>
      intro acc
      rw [List.foldl_cons, List.any_cons]
      cases hpass : profileAllowsName profile doc.name with
      | false =>
          rw [if_neg (by simp [hpass]), ih acc]
          simp [hpass]
      | true =>
          rw [if_pos (by simp [hpass]), ih (dictSet acc doc._id profile)]
          by_cases hid : doc._id = x
          · cases hany : gs.any
                (fun doc => doc._id = x && profileAllowsName profile doc.name) with
            | true => simp [hany, hid, hpass]
            | false => simp [hany, hid, hpass, dictGet_dictSet_self]
          · have hne := dictGet_dictSet_ne acc profile
              (fun he => hid he.symm)
            cases hany : gs.any
                (fun doc => doc._id = x && profileAllowsName profile doc.name) with
            | true => simp [hany, hid, hpass, hne]
            | false => simp [hany, hid, hpass, hne]

/-- `_prepare_profile_for_products`' per-type scan, characterized at one
lookup key. -/
theorem dictGet_prepareForType (profiles : List Profile)
    (product_type : String) (g : List SubsetDoc) (x : String)
    (acc : PyDict String Profile) :
    dictGet (prepareForType profiles acc product_type g) x
      = match profiles.find? (fun profile =>
            pyLower product_type ∈ profile.product_types_lowered) with
        | none => dictGet acc x
        | some profile =>
            if g.any (fun doc => doc._id = x && profileAllowsName profile doc.name)
            then some profile
            else dictGet acc x := by
  unfold prepareForType
  cases hfind : profiles.find? (fun profile =>
      pyLower product_type ∈ profile.product_types_lowered) with
  | none => rfl
  | some profile => exact dictGet_prepare_fold_assign profile x g acc

/-- The per-type scan never touches a key that is not the id of one of the
group's products. -/
theorem prepareForType_stable (profiles : List Profile)
    (product_type : String) (g : List SubsetDoc) {x : String}
    (hno : ∀ doc ∈ g, doc._id ≠ x) (acc : PyDict String Profile) :
    dictGet (prepareForType profiles acc product_type g) x = dictGet acc x := by
  rw [dictGet_prepareForType]
  cases profiles.find? (fun profile =>
      pyLower product_type ∈ profile.product_types_lowered) with
  | none => rfl
  | some profile =>
      have hany : g.any (fun doc => doc._id = x && profileAllowsName profile doc.name)
          = false := by
        rw [List.any_eq_false]
        intro doc hdoc
        simp [hno doc hdoc]
      simp [hany]

theorem prepare_outer_stable (profiles : List Profile) {x : String} :
    ∀ (entries : PyDict String (List SubsetDoc)) (acc : PyDict String Profile),
    (∀ kv ∈ entries, ∀ doc ∈ kv.2, doc._id ≠ x) →
    dictGet (entries.foldl
        (fun acc kv => prepareForType profiles acc kv.1 kv.2) acc) x
      = dictGet acc x := by
  intro entries
  induction entries with
  | nil => intro acc _; rfl
  | cons kv rest ih =>
      intro acc hno
      rw [List.foldl_cons]
      rw [ih _ (fun e he doc hdoc => hno e (.tail _ he) doc hdoc)]
      exact prepareForType_stable profiles kv.1 kv.2
        (fun doc hdoc => hno kv (.head _) doc hdoc) acc

/-- Spec §4.2's selection rule, stated from the specification's words: the
first profile (in configured order) whose normalized product-type set
contains the product's type. -/
def firstTypeMatchingProfile (product_type : String) (profiles : List Profile) :
    Option Profile :=
  profiles.find? (fun profile =>
    pyLower product_type ∈ profile.product_types_lowered)

/-- Spec §4.2's per-product result, stated from the specification's words:
the first type-matching profile, kept only when the optional name filter
admits the product's name; `none` when the product has no derivable type,
no profile matches its type, or the name filter rejects it. -/
def specAssignedProfile (profiles : List Profile) (doc : SubsetDoc) :
    Option Profile :=
  match productTypeOf doc with
  | none => none
  | some pt =>
    match firstTypeMatchingProfile pt profiles with
    | none => none
    | some profile =>
        if profileAllowsName profile doc.name then some profile else none

/-- **C4.**  For products with pairwise-distinct ids,
`_prepare_profile_for_products` assigns each product exactly the first
profile whose normalized product-type set contains the product's type
(scanning stops at that profile even if its name filter rejects the
product), subject to the optional name filter; products with no match are
absent from the result; consequently all products sharing a product type
that receive a profile receive the same one. -/
theorem claim_C4 (profiles : List Profile) (docs : List SubsetDoc)
    (hnd : (docs.map (fun d => d._id)).Nodup) :
    (∀ d ∈ docs,
      dictGet (_prepare_profile_for_products docs profiles) d._id
        = specAssignedProfile profiles d)
    ∧ (∀ d ∈ docs, ∀ e ∈ docs, productTypeOf d = productTypeOf e →
        ∀ p q,
          dictGet (_prepare_profile_for_products docs profiles) d._id = some p →
          dictGet (_prepare_profile_for_products docs profiles) e._id = some q →
          p = q) := by
  have hinj : ∀ a ∈ docs, ∀ b ∈ docs, a._id = b._id → a = b :=
    fun a ha b hb hab => List.inj_on_of_nodup_map hnd ha hb hab
  have main : ∀ d ∈ docs,
      dictGet (_prepare_profile_for_products docs profiles) d._id
        = specAssignedProfile profiles d := by
    intro d hd
    unfold _prepare_profile_for_products
    cases hpt : productTypeOf d with
    | none =>
        rw [prepare_outer_stable profiles (map_products_by_type docs) []
          (by
            intro kv hkv doc hdoc heq
            obtain ⟨k, g⟩ := kv
            have hchar := mppt_entry_char hkv
            rw [hchar] at hdoc
            have hmf := List.mem_filter.mp hdoc
            have hdd : doc = d := hinj doc hmf.1 d hd heq
            have hdt : productTypeOf doc = some k := by simpa using hmf.2
            rw [hdd, hpt] at hdt
            exact absurd hdt (by simp))]
        simp [specAssignedProfile, hpt, dictGet]
    | some pt =>
        have hdf : d ∈ docs.filter (fun d0 => productTypeOf d0 = some pt) :=
          List.mem_filter.mpr ⟨hd, by simp [hpt]⟩
        have hne : ¬ (docs.filter
            (fun d0 => productTypeOf d0 = some pt)).isEmpty = true := by
          intro h
          rw [List.isEmpty_iff] at h
          rw [h] at hdf
          simp at hdf
        have hget : dictGet (map_products_by_type docs) pt
            = some (docs.filter (fun d0 => productTypeOf d0 = some pt)) := by
          rw [mppt_dictGet_char, if_neg hne]
        have hmem := mem_of_dictGet_eq_some hget
        obtain ⟨pre, post, hsplit⟩ := List.append_of_mem hmem
        have hknd := mppt_keys_nodup docs
        rw [hsplit] at hknd
        have hkeq : dictKeys (pre ++
              (pt, docs.filter (fun d0 => productTypeOf d0 = some pt)) :: post)
            = dictKeys pre ++ pt :: dictKeys post := by
          simp [dictKeys]
        rw [hkeq, List.nodup_append] at hknd
        have hpt_pre : pt ∉ dictKeys pre := fun hmem' =>
          hknd.2.2 hmem' (List.mem_cons_self _ _)
        have hpt_post : pt ∉ dictKeys post := (List.nodup_cons.mp hknd.2.1).1
        have hside : ∀ (kv : String × List SubsetDoc),
            kv ∈ pre ∨ kv ∈ post → ∀ doc ∈ kv.2, doc._id ≠ d._id := by
          intro kv hkv doc hdoc heq
          have hkvmem : kv ∈ map_products_by_type docs := by
            rw [hsplit]
            rcases hkv with h | h
            · exact List.mem_append.mpr (Or.inl h)
            · exact List.mem_append.mpr (Or.inr (.tail _ h))
          obtain ⟨k, g⟩ := kv
          have hchar := mppt_entry_char hkvmem
          rw [hchar] at hdoc
          have hmf := List.mem_filter.mp hdoc
          have hdd : doc = d := hinj doc hmf.1 d hd heq
          have hdt : productTypeOf doc = some k := by simpa using hmf.2
          rw [hdd, hpt] at hdt
          have hkpt : pt = k := by simpa using hdt
          subst hkpt
          rcases hkv with h | h
          · exact hpt_pre (List.mem_map.mpr ⟨(pt, g), h, rfl⟩)
          · exact hpt_post (List.mem_map.mpr ⟨(pt, g), h, rfl⟩)
        rw [hsplit, List.foldl_append, List.foldl_cons,
          prepare_outer_stable profiles post _
            (fun kv hkv doc hdoc => hside kv (Or.inr hkv) doc hdoc),
          dictGet_prepareForType,
          prepare_outer_stable profiles pre []
            (fun kv hkv doc hdoc => hside kv (Or.inl hkv) doc hdoc)]
        unfold specAssignedProfile firstTypeMatchingProfile
        cases hfind : profiles.find? (fun profile =>
            pyLower pt ∈ profile.product_types_lowered) with
        | none => simp [hpt, hfind, dictGet]
        | some profile =>
            by_cases hallow : profileAllowsName profile d.name = true
            · have hany : (docs.filter (fun d0 => productTypeOf d0 = some pt)).any
                  (fun doc => doc._id = d._id && profileAllowsName profile doc.name)
                  = true := by
                rw [List.any_eq_true]
                exact ⟨d, hdf, by simp [hallow]⟩
              simp [hpt, hfind, hany, hallow]
            · have hallow' : profileAllowsName profile d.name = false :=
                Bool.not_eq_true _ ▸ (by simpa using hallow)
              have hany : (docs.filter (fun d0 => productTypeOf d0 = some pt)).any
                  (fun doc => doc._id = d._id && profileAllowsName profile doc.name)
                  = false := by
                rw [List.any_eq_false]
                intro doc hdoc
                by_cases hid : doc._id = d._id
                · have hdd : doc = d :=
                    hinj doc (List.mem_filter.mp hdoc).1 d hd hid
                  simp [hdd, hallow']
                · simp [hid]
              simp [hpt, hfind, hany, hallow', dictGet]
  refine ⟨main, ?_⟩
  intro d hd e he hty p q hp hq
  rw [main d hd] at hp
  rw [main e he] at hq
  unfold specAssignedProfile at hp hq
  rw [hty] at hp
  cases hpt : productTypeOf e with
  | none =>
      rw [hpt] at hp
      simp at hp
  | some pt =>
      rw [hpt] at hp hq
      have hp' : (match firstTypeMatchingProfile pt profiles with
          | none => none
          | some profile =>
              if profileAllowsName profile d.name = true then some profile
              else none) = some p := hp
      have hq' : (match firstTypeMatchingProfile pt profiles with
          | none => none
          | some profile =>
              if profileAllowsName profile e.name = true then some profile
              else none) = some q := hq
      cases hfind : firstTypeMatchingProfile pt profiles with
      | none =>
          rw [hfind] at hp'
          simp at hp'
      | some profile =>
          rw [hfind] at hp' hq'
          by_cases h1 : profileAllowsName profile d.name = true
          · by_cases h2 : profileAllowsName profile e.name = true
            · simp [h1] at hp'
              simp [h2] at hq'
              rw [← hp', ← hq']
            · simp [h2] at hq'
          · simp [h1] at hp' 
  

/-- Witness for `claim_C4` at the concrete single-product input. -/
theorem claim_C4_witness :
    (∀ d ∈ [docC1],
      dictGet (_prepare_profile_for_products [docC1] [charFilterProf]) d._id
        = specAssignedProfile [charFilterProf] d)
    ∧ (∀ d ∈ [docC1], ∀ e ∈ [docC1], productTypeOf d = productTypeOf e →
        ∀ p q,
          dictGet (_prepare_profile_for_products [docC1] [charFilterProf]) d._id
            = some p →
          dictGet (_prepare_profile_for_products [docC1] [charFilterProf]) e._id
            = some q →
          p = q) :=
  claim_C4 [charFilterProf] [docC1] (by decide)

/-! ## C7: the only raise is the duplicate-loader `KeyError` -/

/-- The names of the enabled discovered loaders, in discovery order. -/
def enabledLoaderNames (loaders : List LoaderPlugin) : List String :=
  (loaders.filter (fun l => l.enabled)).map (fun l => l.name)

theorem mem_keys_of_dictContains {κ ν : Type} [DecidableEq κ]
    {d : PyDict κ ν} {k : κ} (h : dictContains d k = true) : k ∈ dictKeys d := by
  unfold dictContains at h
  cases hget : dictGet d k with
  | none => rw [hget] at h; simp at h
  | some v => exact mem_keys_of_dictGet_eq_some hget

theorem not_dictContains_of_not_mem_keys {κ ν : Type} [DecidableEq κ]
    {d : PyDict κ ν} {k : κ} (h : dictContains d k = false) : k ∉ dictKeys d := by
  intro hmem
  have := dictGet_isSome_of_mem_keys hmem
  unfold dictContains at h
  rw [this] at h
  simp at h

theorem prepare_loaders_ok_iff :
    ∀ (loaders : List LoaderPlugin) (acc : PyDict String LoaderPlugin),
    exceptOk (prepare_loaders loaders acc) = true ↔
      ((enabledLoaderNames loaders).Nodup ∧
        ∀ n ∈ enabledLoaderNames loaders, n ∉ dictKeys acc) := by
  intro loaders
  induction loaders with
  | nil =>
      intro acc
      simp [prepare_loaders, exceptOk, enabledLoaderNames]
  | cons l rest ih =>
      intro acc
      cases hen : l.enabled with
      | false =>
          have hnames : enabledLoaderNames (l :: rest) = enabledLoaderNames rest := by
            simp [enabledLoaderNames, List.filter_cons, hen]
          rw [hnames]
          have hstep : prepare_loaders (l :: rest) acc = prepare_loaders rest acc := by
            simp [prepare_loaders, hen]
          rw [hstep]
          exact ih acc
      | true =>
          have hnames : enabledLoaderNames (l :: rest)
              = l.name :: enabledLoaderNames rest := by
            simp [enabledLoaderNames, List.filter_cons, hen]
          rw [hnames]
          cases hcon : dictContains acc l.name with
          | true =>
              have hstep : prepare_loaders (l :: rest) acc
                  = .error ("Duplicated loader name " ++ l.name ++ "!") := by
                simp [prepare_loaders, hen, hcon]
              rw [hstep]
              constructor
              · intro h; simp [exceptOk] at h
              · intro h
                exact absurd (mem_keys_of_dictContains hcon)
                  (h.2 l.name (List.mem_cons_self _ _))
          | false =>
              have hstep : prepare_loaders (l :: rest) acc
                  = prepare_loaders rest (dictSet acc l.name l) := by
                simp [prepare_loaders, hen, hcon]
              rw [hstep, ih (dictSet acc l.name l)]
              have hk := not_dictContains_of_not_mem_keys hcon
              constructor
              · rintro ⟨hnd, hmem⟩
                refine ⟨List.nodup_cons.mpr ⟨?_, hnd⟩, ?_⟩
                · intro hmem'
                  exact (hmem l.name hmem') (mem_keys_dictSet.mpr (Or.inl rfl))
                · intro n hn
                  rcases List.mem_cons.mp hn with hn | hn
                  · subst hn; exact hk
                  · intro hkn
                    exact (hmem n hn) (mem_keys_dictSet.mpr (Or.inr hkn))
              · rintro ⟨hnd, hmem⟩
                rw [List.nodup_cons] at hnd
                refine ⟨hnd.2, ?_⟩
                intro n hn hkn
                rcases mem_keys_dictSet.mp hkn with h | h
                · subst h; exact hnd.1 hn
                · exact (hmem n (List.mem_cons_of_mem _ hn)) h

theorem prepare_loaders_no_enabled :
    ∀ (loaders : List LoaderPlugin) (acc : PyDict String LoaderPlugin),
    enabledLoaderNames loaders = [] → prepare_loaders loaders acc = .ok acc := by
  intro loaders
  induction loaders with
  | nil => intro acc _; rfl
  | cons l rest ih =>
      intro acc h
      cases hen : l.enabled with
      | false =>
          have : enabledLoaderNames rest = [] := by
            simpa [enabledLoaderNames, List.filter_cons, hen] using h
          simpa [prepare_loaders, hen] using ih acc this
      | true =>
          exact absurd h (by simp [enabledLoaderNames, List.filter_cons, hen])

theorem mem_foldl_dictSet {κ ν α : Type} [DecidableEq κ]
    (kf : α → κ) (vf : α → ν) :
    ∀ (l : List α) (init : PyDict κ ν) (e : κ × ν),
      e ∈ l.foldl (fun d a => dictSet d (kf a) (vf a)) init →
      e ∈ init ∨ ∃ x ∈ l, e = (kf x, vf x) := by
  intro l
  induction l with
  | nil => intro init e he; exact Or.inl he
  | cons a rest ih =>
      intro init e he
      rw [List.foldl_cons] at he
      rcases ih _ e he with h | ⟨x, hx, hex⟩
      · rcases mem_dictSet h with h | h
        · exact Or.inr ⟨a, List.mem_cons_self _ _, h⟩
        · exact Or.inl h
      · exact Or.inr ⟨x, List.mem_cons_of_mem _ hx, hex⟩

theorem productMaps_eq (subsets : PyDict String SubsetData) :
    productMaps subsets
      = (subsets.foldl (fun d kv => dictSet d kv.2.subset_doc._id kv.2.subset_doc) [],
         subsets.foldl (fun d kv => dictSet d kv.1 kv.2.version_doc) [],
         subsets.foldl (fun d kv => dictSet d kv.2.version_doc._id kv.2.repres) []) := by
  unfold productMaps
  have general : ∀ (l : PyDict String SubsetData)
      (i1 : PyDict String SubsetDoc) (i2 : PyDict String VersionDoc)
      (i3 : PyDict String (List RepreDoc)),
      l.foldl (fun maps kv =>
        ( dictSet maps.1 kv.2.subset_doc._id kv.2.subset_doc,
          dictSet maps.2.1 kv.1 kv.2.version_doc,
          dictSet maps.2.2 kv.2.version_doc._id kv.2.repres )) (i1, i2, i3)
      = (l.foldl (fun d kv => dictSet d kv.2.subset_doc._id kv.2.subset_doc) i1,
         l.foldl (fun d kv => dictSet d kv.1 kv.2.version_doc) i2,
         l.foldl (fun d kv => dictSet d kv.2.version_doc._id kv.2.repres) i3) := by
    intro l
    induction l with
    | nil => intro i1 i2 i3; rfl
    | cons kv rest ih => intro i1 i2 i3; rw [List.foldl_cons]; exact ih _ _ _
  exact general subsets [] [] []

theorem get_last_versions_entry (env : BuildEnv) :
    ∀ (product_ids : List String) (acc : PyDict String VersionDoc)
      (kv : String × VersionDoc),
    kv ∈ product_ids.foldl (fun acc pid =>
        match (env.version_docs_table.filter (fun v => v.parent = pid)).getLast? with
        | none => acc
        | some v => dictSet acc pid v) acc →
    kv ∈ acc ∨ (kv.1 ∈ product_ids ∧ kv.2.parent = kv.1) := by
  intro product_ids
  induction product_ids with
  | nil => intro acc kv h; exact Or.inl h
  | cons pid rest ih =>
      intro acc kv h
      rw [List.foldl_cons] at h
      cases hlast : (env.version_docs_table.filter (fun v => v.parent = pid)).getLast? with
      | none =>
          rw [hlast] at h
          rcases ih acc kv h with h | ⟨h1, h2⟩
          · exact Or.inl h
          · exact Or.inr ⟨List.mem_cons_of_mem _ h1, h2⟩
      | some v =>
          rw [hlast] at h
          rcases ih _ kv h with h | ⟨h1, h2⟩
          · rcases mem_dictSet h with h | h
            · subst h
              refine Or.inr ⟨List.mem_cons_self _ _, ?_⟩
              have hv := List.mem_of_mem_getLast? hlast
              simpa using (List.mem_filter.mp hv).2
            · exact Or.inl h
          · exact Or.inr ⟨List.mem_cons_of_mem _ h1, h2⟩

/-- Key-consistency of collected output: every per-product entry is keyed
by its own subset document's id. -/
def subsetsKeyInv (out : PyDict String AssetDocData) : Prop :=
  ∀ kv ∈ out, ∀ sv ∈ kv.2.subsets, sv.2.subset_doc._id = sv.1

theorem insertRepre_inv {out : PyDict String AssetDocData}
    (r : RepreDoc) {vd : VersionDoc} {sd : SubsetDoc} (ad : AssetDoc)
    (hout : subsetsKeyInv out) (hsd : sd._id = vd.parent) :
    subsetsKeyInv (insertRepre out r vd sd ad) := by
  cases hfold : dictGet out sd.parent with
  | none =>
      have hins : insertRepre out r vd sd ad
          = dictSet out sd.parent
              ⟨ad, dictSet [] vd.parent (⟨sd, vd, [r]⟩ : SubsetData)⟩ := by
        simp [insertRepre, hfold, dictGet]
      rw [hins]
      intro kv hkv sv hsv
      rcases mem_dictSet hkv with hkv | hkv
      · subst hkv
        have hsv' : sv = (vd.parent, (⟨sd, vd, [r]⟩ : SubsetData)) := by
          simpa [dictSet] using hsv
        rw [hsv']
        exact hsd
      · exact hout kv hkv sv hsv
  | some fe =>
      cases hsub : dictGet fe.subsets vd.parent with
      | none =>
          have hins : insertRepre out r vd sd ad
              = dictSet out sd.parent
                  ⟨fe.asset_doc,
                    dictSet fe.subsets vd.parent (⟨sd, vd, [r]⟩ : SubsetData)⟩ := by
            simp [insertRepre, hfold, hsub]
          rw [hins]
          intro kv hkv sv hsv
          rcases mem_dictSet hkv with hkv | hkv
          · subst hkv
            rcases mem_dictSet hsv with hsv | hsv
            · rw [hsv]
              exact hsd
            · exact hout (sd.parent, fe) (mem_of_dictGet_eq_some hfold) sv hsv
          · exact hout kv hkv sv hsv
      | some se =>
          have hins : insertRepre out r vd sd ad
              = dictSet out sd.parent
                  ⟨fe.asset_doc,
                    dictSet fe.subsets vd.parent
                      (⟨se.subset_doc, se.version_doc, se.repres ++ [r]⟩ :
                        SubsetData)⟩ := by
            simp [insertRepre, hfold, hsub]
          rw [hins]
          intro kv hkv sv hsv
          rcases mem_dictSet hkv with hkv | hkv
          · subst hkv
            rcases mem_dictSet hsv with hsv | hsv
            · rw [hsv]
              exact hout (sd.parent, fe) (mem_of_dictGet_eq_some hfold)
                (vd.parent, se) (mem_of_dictGet_eq_some hsub)
            · exact hout (sd.parent, fe) (mem_of_dictGet_eq_some hfold) sv hsv
          · exact hout kv hkv sv hsv

theorem collectRepres_props (A : PyDict String AssetDoc)
    (SB : PyDict String SubsetDoc) (LB : PyDict String VersionDoc)
    (h1 : ∀ kv ∈ LB, kv.2.parent ∈ dictKeys SB)
    (h2 : ∀ kv ∈ SB, kv.2.parent ∈ dictKeys A)
    (h3 : ∀ kv ∈ SB, kv.2._id = kv.1) :
    ∀ (rs : List RepreDoc) (out : PyDict String AssetDocData),
    (∀ r ∈ rs, r.parent ∈ dictKeys LB) → subsetsKeyInv out →
    ∃ res, collectRepres A SB LB rs out = .ok res ∧ subsetsKeyInv res := by
  intro rs
  induction rs with
  | nil => intro out _ hinv; exact ⟨out, rfl, hinv⟩
  | cons r rest ih =>
      intro out hmem hinv
      have hrk : r.parent ∈ dictKeys LB := hmem r (List.mem_cons_self _ _)
      cases hv : dictGet LB r.parent with
      | none =>
          have := dictGet_isSome_of_mem_keys hrk
          rw [hv] at this
          simp at this
      | some vd =>
          have hvk : vd.parent ∈ dictKeys SB := h1 _ (mem_of_dictGet_eq_some hv)
          cases hs : dictGet SB vd.parent with
          | none =>
              have := dictGet_isSome_of_mem_keys hvk
              rw [hs] at this
              simp at this
          | some sd =>
              have hsk : sd.parent ∈ dictKeys A := h2 _ (mem_of_dictGet_eq_some hs)
              cases ha : dictGet A sd.parent with
              | none =>
                  have := dictGet_isSome_of_mem_keys hsk
                  rw [ha] at this
                  simp at this
              | some ad =>
                  have hsd : sd._id = vd.parent := h3 _ (mem_of_dictGet_eq_some hs)
                  have hstep : collectRepres A SB LB (r :: rest) out
                      = collectRepres A SB LB rest
                          (insertRepre out r vd sd ad) := by
                    simp [collectRepres, hv, hs, ha]
                  rw [hstep]
                  exact ih _ (fun x hx => hmem x (List.mem_cons_of_mem _ hx))
                    (insertRepre_inv r ad hinv hsd)

theorem collect_props (env : BuildEnv) (asset_docs : List AssetDoc) :
    ∃ res, (_collect_last_version_repres env asset_docs).1 = .ok res
      ∧ subsetsKeyInv res := by
  unfold _collect_last_version_repres
  by_cases hempty : asset_docs.isEmpty = true
  · rw [if_pos hempty]
    exact ⟨[], rfl, by intro kv hkv; simp at hkv⟩
  · rw [if_neg hempty]
    apply collectRepres_props
    · intro kv hkv
      rcases mem_foldl_dictSet (fun (v : VersionDoc) => v._id) (fun v => v) _ _ _ hkv
        with h | ⟨v, hv, hkve⟩
      · simp at h
      · rcases List.mem_map.mp hv with ⟨kv', hkv', hv'⟩
        rcases get_last_versions_entry env _ _ _ hkv' with h | ⟨hk1, hk2⟩
        · simp at h
        · subst hkve
          subst hv'
          simpa [hk2] using hk1
    · intro kv hkv
      rcases mem_foldl_dictSet (fun (sd : SubsetDoc) => sd._id) (fun sd => sd) _ _ _ hkv
        with h | ⟨sdoc, hs, hkve⟩
      · simp at h
      · subst hkve
        simpa using (List.mem_filter.mp hs).2
    · intro kv hkv
      rcases mem_foldl_dictSet (fun (sd : SubsetDoc) => sd._id) (fun sd => sd) _ _ _ hkv
        with h | ⟨sdoc, hs, hkve⟩
      · simp at h
      · subst hkve
        rfl
    · intro r hr
      simpa using (List.mem_filter.mp hr).2
    · intro kv hkv
      simp at hkv

theorem prepare_fold_assign_keys (profile : Profile) :
    ∀ (g : List SubsetDoc) (acc : PyDict String Profile),
    ∀ k ∈ dictKeys (g.foldl (fun acc subset_doc =>
        if profileAllowsName profile subset_doc.name
        then dictSet acc subset_doc._id profile
        else acc) acc),
      k ∈ dictKeys acc ∨ ∃ doc ∈ g, doc._id = k := by
  intro g
  induction g with
  | nil => intro acc k hk; exact Or.inl hk
  | cons doc gs ih =>
      intro acc k hk
      rw [List.foldl_cons] at hk
      cases hallow : profileAllowsName profile doc.name with
      | false =>
          rw [if_neg (by simp [hallow])] at hk
          rcases ih acc k hk with h | ⟨d0, hd0, hid⟩
          · exact Or.inl h
          · exact Or.inr ⟨d0, List.mem_cons_of_mem _ hd0, hid⟩
      | true =>
          rw [if_pos (by simp [hallow])] at hk
          rcases ih _ k hk with h | ⟨d0, hd0, hid⟩
          · rcases mem_keys_dictSet.mp h with h | h
            · exact Or.inr ⟨doc, List.mem_cons_self _ _, h.symm⟩
            · exact Or.inl h
          · exact Or.inr ⟨d0, List.mem_cons_of_mem _ hd0, hid⟩

theorem prepareForType_keys (profiles : List Profile)
    (acc : PyDict String Profile) (product_type : String) (g : List SubsetDoc) :
    ∀ k ∈ dictKeys (prepareForType profiles acc product_type g),
      k ∈ dictKeys acc ∨ ∃ doc ∈ g, doc._id = k := by
  unfold prepareForType
  cases hfind : profiles.find? (fun profile =>
      pyLower product_type ∈ profile.product_types_lowered) with
  | none => intro k hk; exact Or.inl hk
  | some profile => exact fun k hk => prepare_fold_assign_keys profile g acc k hk

theorem prepare_outer_keys (profiles : List Profile) :
    ∀ (entries : PyDict String (List SubsetDoc)) (acc : PyDict String Profile),
    ∀ k ∈ dictKeys (entries.foldl
        (fun acc kv => prepareForType profiles acc kv.1 kv.2) acc),
      k ∈ dictKeys acc ∨ ∃ kv ∈ entries, ∃ doc ∈ kv.2, doc._id = k := by
  intro entries
  induction entries with
  | nil => intro acc k hk; exact Or.inl hk
  | cons kv rest ih =>
      intro acc k hk
      rw [List.foldl_cons] at hk
      rcases ih _ k hk with h | ⟨kv', hkv', doc, hdoc, hid⟩
      · rcases prepareForType_keys profiles acc kv.1 kv.2 k h with h | ⟨doc, hdoc, hid⟩
        · exact Or.inl h
        · exact Or.inr ⟨kv, List.mem_cons_self _ _, doc, hdoc, hid⟩
      · exact Or.inr ⟨kv', List.mem_cons_of_mem _ hkv', doc, hdoc, hid⟩

theorem prepare_keys_sub (docs : List SubsetDoc) (profiles : List Profile) :
    ∀ k ∈ dictKeys (_prepare_profile_for_products docs profiles),
      ∃ d ∈ docs, d._id = k := by
  intro k hk
  unfold _prepare_profile_for_products at hk
  rcases prepare_outer_keys profiles _ [] k hk with h | ⟨kv, hkv, doc, hdoc, hid⟩
  · simp [dictKeys] at h
  · obtain ⟨kk, g⟩ := kv
    have hg := mppt_entry_char hkv
    rw [hg] at hdoc
    exact ⟨doc, (List.mem_filter.mp hdoc).1, hid⟩

theorem keys_filter_fold_ddAppend (product_id : String) (profile : Profile) :
    ∀ (repres : List RepreDoc) (acc : PyDict String (List RepreDoc)),
    ∀ k ∈ dictKeys (repres.foldl (fun acc repre =>
        if pyLower repre.name ∈ profile.repre_names_lowered
        then ddAppend acc product_id repre else acc) acc),
      k ∈ dictKeys acc ∨ k = product_id := by
  intro repres
  induction repres with
  | nil => intro acc k hk; exact Or.inl hk
  | cons repre rest ih =>
      intro acc k hk
      rw [List.foldl_cons] at hk
      by_cases hc : pyLower repre.name ∈ profile.repre_names_lowered
      · rw [if_pos hc] at hk
        rcases ih _ k hk with h | h
        · rcases mem_keys_ddAppend.mp h with h | h
          · exact Or.inr h
          · exact Or.inl h
        · exact Or.inr h
      · rw [if_neg hc] at hk
        exact ih acc k hk

theorem buildValidRepres_props (vbp : PyDict String VersionDoc)
    (rbv : PyDict String (List RepreDoc)) :
    ∀ (entries : List (String × Profile)) (acc : PyDict String (List RepreDoc)),
    (∀ e ∈ entries, ∃ vd, dictGet vbp e.1 = some vd ∧ vd._id ∈ dictKeys rbv) →
    ∃ res, buildValidRepres vbp rbv entries acc = .ok res ∧
      (∀ k ∈ dictKeys res, k ∈ dictKeys acc ∨ ∃ e ∈ entries, e.1 = k) := by
  intro entries
  induction entries with
  | nil => intro acc _; exact ⟨acc, rfl, fun k hk => Or.inl hk⟩
  | cons e rest ih =>
      intro acc hpre
      obtain ⟨vd, hvd, hvk⟩ := hpre e (List.mem_cons_self _ _)
      obtain ⟨pid, profile⟩ := e
      cases hrv : dictGet rbv vd._id with
      | none =>
          have := dictGet_isSome_of_mem_keys hvk
          rw [hrv] at this
          simp at this
      | some repres =>
          have hstep : buildValidRepres vbp rbv ((pid, profile) :: rest) acc
              = buildValidRepres vbp rbv rest
                  (repres.foldl (fun acc repre =>
                    if pyLower repre.name ∈ profile.repre_names_lowered
                    then ddAppend acc pid repre else acc) acc) := by
            simp [buildValidRepres, hvd, hrv]
          rw [hstep]
          obtain ⟨res, hres, hkeys⟩ :=
            ih _ (fun x hx => hpre x (List.mem_cons_of_mem _ hx))
          refine ⟨res, hres, ?_⟩
          intro k hk
          rcases hkeys k hk with h | ⟨x, hx, hxk⟩
          · rcases keys_filter_fold_ddAppend pid profile repres acc k h with h | h
            · exact Or.inl h
            · exact Or.inr ⟨(pid, profile), List.mem_cons_self _ _, h.symm⟩
          · exact Or.inr ⟨x, List.mem_cons_of_mem _ hx, hxk⟩

theorem loadOrdered_ok
    (lr : LoaderPlugin → String → String → Except PyExc Container)
    (pbi : PyDict String SubsetDoc) (ppi : PyDict String Profile)
    (lbn : PyDict String LoaderPlugin) :
    ∀ (l : List (String × List RepreDoc)) (st : LoadState),
    (∀ e ∈ l, (dictGet pbi e.1).isSome = true ∧ (dictGet ppi e.1).isSome = true) →
    ∃ res, loadOrdered lr pbi ppi lbn l st = .ok res := by
  intro l
  induction l with
  | nil => intro st _; exact ⟨st, rfl⟩
  | cons e rest ih =>
      intro st hpre
      obtain ⟨h1, h2⟩ := hpre e (List.mem_cons_self _ _)
      obtain ⟨pid, repres⟩ := e
      cases hg1 : dictGet pbi pid with
      | none => rw [hg1] at h1; simp at h1
      | some sdoc =>
          cases hg2 : dictGet ppi pid with
          | none => rw [hg2] at h2; simp at h2
          | some profile =>
              have hstep : loadOrdered lr pbi ppi lbn ((pid, repres) :: rest) st
                  = loadOrdered lr pbi ppi lbn rest
                      (tryRepreNames lr lbn pid sdoc.name profile repres
                        { st with is_loaded := false }) := by
                simp [loadOrdered, hg1, hg2]
              rw [hstep]
              exact ih _ (fun x hx => hpre x (List.mem_cons_of_mem _ hx))

theorem exceptOk_iff {ε α : Type} (e : Except ε α) :
    exceptOk e = true ↔ ∃ x, e = .ok x := by
  cases e <;> simp [exceptOk]

theorem lcbad_ok
    (lr : LoaderPlugin → String → String → Except PyExc Container)
    (bp : TaskPreset) (data : AssetDocData) (profs : List Profile)
    (lbn : PyDict String LoaderPlugin)
    (hinv : ∀ sv ∈ data.subsets, sv.2.subset_doc._id = sv.1) :
    exceptOk (load_containers_by_asset_data lr bp data profs lbn) = true := by
  have hpbi : (productMaps data.subsets).1
      = data.subsets.foldl
          (fun d kv => dictSet d kv.2.subset_doc._id kv.2.subset_doc) [] := by
    rw [productMaps_eq]
  have hvbp : (productMaps data.subsets).2.1
      = data.subsets.foldl (fun d kv => dictSet d kv.1 kv.2.version_doc) [] := by
    rw [productMaps_eq]
  have hrbv : (productMaps data.subsets).2.2
      = data.subsets.foldl
          (fun d kv => dictSet d kv.2.version_doc._id kv.2.repres) [] := by
    rw [productMaps_eq]
  have hF1 : ∀ kv ∈ (productMaps data.subsets).1,
      ∃ sv ∈ data.subsets, kv = (sv.2.subset_doc._id, sv.2.subset_doc) := by
    intro kv hkv
    rw [hpbi] at hkv
    rcases mem_foldl_dictSet (fun (sv : String × SubsetData) => sv.2.subset_doc._id)
        (fun sv => sv.2.subset_doc) _ _ _ hkv with h | h
    · simp at h
    · exact h
  have hF2 : ∀ kv ∈ (productMaps data.subsets).2.1,
      ∃ sv ∈ data.subsets, kv = (sv.1, sv.2.version_doc) := by
    intro kv hkv
    rw [hvbp] at hkv
    rcases mem_foldl_dictSet (fun (sv : String × SubsetData) => sv.1)
        (fun sv => sv.2.version_doc) _ _ _ hkv with h | h
    · simp at h
    · exact h
  have hF3 : ∀ sv ∈ data.subsets, sv.1 ∈ dictKeys (productMaps data.subsets).2.1 := by
    intro sv hsv
    rw [hvbp]
    exact mem_keys_foldl_dictSet _ _ _ _ _ hsv
  have hF4 : ∀ sv ∈ data.subsets,
      sv.2.version_doc._id ∈ dictKeys (productMaps data.subsets).2.2 := by
    intro sv hsv
    rw [hrbv]
    exact mem_keys_foldl_dictSet _ _ _ _ _ hsv
  have hidkeys : ∀ k, (∃ d ∈ dictValues (productMaps data.subsets).1, d._id = k) →
      ∃ sv ∈ data.subsets, sv.1 = k := by
    rintro k ⟨d, hd, hdk⟩
    rcases List.mem_map.mp hd with ⟨kv, hkv, hkvd⟩
    rcases hF1 kv hkv with ⟨sv, hsv, hkve⟩
    refine ⟨sv, hsv, ?_⟩
    have hd2 : d = sv.2.subset_doc := by
      rw [← hkvd, hkve]
    rw [← hdk, hd2]
    exact (hinv sv hsv).symm
  unfold load_containers_by_asset_data
  split
  · rfl
  · simp only []
    split
    · rfl
    · split
      · rfl
      · split
        · rfl
        · have hpre : ∀ e ∈ _prepare_profile_for_products
              (dictValues (productMaps data.subsets).1)
              (_filter_build_profiles profs lbn),
              ∃ vd, dictGet (productMaps data.subsets).2.1 e.1 = some vd
                ∧ vd._id ∈ dictKeys (productMaps data.subsets).2.2 := by
            intro e he
            have hek : e.1 ∈ dictKeys (_prepare_profile_for_products
                (dictValues (productMaps data.subsets).1)
                (_filter_build_profiles profs lbn)) :=
              List.mem_map.mpr ⟨e, he, rfl⟩
            have := prepare_keys_sub _ _ _ hek
            rcases hidkeys e.1 this with ⟨sv, hsv, hsvk⟩
            have hk := hF3 sv hsv
            rw [hsvk] at hk
            cases hget : dictGet (productMaps data.subsets).2.1 e.1 with
            | none =>
                have := dictGet_isSome_of_mem_keys hk
                rw [hget] at this
                simp at this
            | some vd =>
                refine ⟨vd, rfl, ?_⟩
                rcases hF2 _ (mem_of_dictGet_eq_some hget) with ⟨sv', hsv', hkve⟩
                have : vd = sv'.2.version_doc := congrArg Prod.snd hkve
                rw [this]
                exact hF4 sv' hsv'
          obtain ⟨vr, hvr, hvrkeys⟩ := buildValidRepres_props
            (productMaps data.subsets).2.1 (productMaps data.subsets).2.2
            (_prepare_profile_for_products (dictValues (productMaps data.subsets).1)
              (_filter_build_profiles profs lbn)) [] hpre
          have hordpre : ∀ e ∈ orderRepresentations
              (product_ids_ordered bp (productMaps data.subsets).1) vr,
              (dictGet (productMaps data.subsets).1 e.1).isSome = true
              ∧ (dictGet (_prepare_profile_for_products
                  (dictValues (productMaps data.subsets).1)
                  (_filter_build_profiles profs lbn)) e.1).isSome = true := by
            intro e he
            have hevr : e ∈ vr := orderRep_entries_mem he
            have hek : e.1 ∈ dictKeys vr := List.mem_map.mpr ⟨e, hevr, rfl⟩
            rcases hvrkeys e.1 hek with h | ⟨pe, hpe, hpek⟩
            · simp [dictKeys] at h
            · constructor
              · have hppik : pe.1 ∈ dictKeys (_prepare_profile_for_products
                    (dictValues (productMaps data.subsets).1)
                    (_filter_build_profiles profs lbn)) :=
                  List.mem_map.mpr ⟨pe, hpe, rfl⟩
                rcases hidkeys pe.1 (prepare_keys_sub _ _ _ hppik)
                  with ⟨sv, hsv, hsvk⟩
                have hin : e.1 ∈ dictKeys (productMaps data.subsets).1 := by
                  rw [← hpek, ← hsvk, ← hinv sv hsv, hpbi]
                  exact mem_keys_foldl_dictSet _ _ _ _ _ hsv
                exact dictGet_isSome_of_mem_keys hin
              · apply dictGet_isSome_of_mem_keys
                rw [← hpek]
                exact List.mem_map.mpr ⟨pe, hpe, rfl⟩
          obtain ⟨st, hst⟩ := loadOrdered_ok lr (productMaps data.subsets).1
            (_prepare_profile_for_products (dictValues (productMaps data.subsets).1)
              (_filter_build_profiles profs lbn)) lbn
            (orderRepresentations (product_ids_ordered bp (productMaps data.subsets).1) vr)
            ⟨[], [], [], false⟩ hordpre
          have hlc : _load_containers lr bp vr (productMaps data.subsets).1
              (_prepare_profile_for_products (dictValues (productMaps data.subsets).1)
                (_filter_build_profiles profs lbn)) lbn = .ok st := hst
          simp [hvr, hlc, exceptOk]

theorem loadLinkedEntries_ok
    (lr : LoaderPlugin → String → String → Except PyExc Container)
    (bp : TaskPreset) (lcp : List Profile) (lbn : PyDict String LoaderPlugin) :
    ∀ (datas : List AssetDocData) (acc : List LoadedData),
    (∀ d ∈ datas, ∀ sv ∈ d.subsets, sv.2.subset_doc._id = sv.1) →
    ∃ res, loadLinkedEntries lr bp lcp lbn datas acc = .ok res := by
  intro datas
  induction datas with
  | nil => intro acc _; exact ⟨acc, rfl⟩
  | cons d rest ih =>
      intro acc hinv
      have h := lcbad_ok lr bp d lcp lbn (hinv d (List.mem_cons_self _ _))
      rcases (exceptOk_iff _).mp h with ⟨x, hx⟩
      cases x with
      | none =>
          have hstep : loadLinkedEntries lr bp lcp lbn (d :: rest) acc
              = loadLinkedEntries lr bp lcp lbn rest acc := by
            simp [loadLinkedEntries, hx]
          rw [hstep]
          exact ih acc (fun e he => hinv e (List.mem_cons_of_mem _ he))
      | some ld =>
          have hstep : loadLinkedEntries lr bp lcp lbn (d :: rest) acc
              = loadLinkedEntries lr bp lcp lbn rest (acc ++ [ld]) := by
            simp [loadLinkedEntries, hx]
          rw [hstep]
          exact ih _ (fun e he => hinv e (List.mem_cons_of_mem _ he))

theorem finishBuild_ok
    (lr : LoaderPlugin → String → String → Except PyExc Container)
    (bp : TaskPreset) (ccp lcp : List Profile)
    (lbn : PyDict String LoaderPlugin)
    (prepared : PyDict String AssetDocData) (cfid : Option String)
    (hpinv : subsetsKeyInv prepared) :
    exceptOk (finishBuild lr bp ccp lcp lbn prepared cfid) = true := by
  have hvals : ∀ d ∈ dictValues prepared, ∀ sv ∈ d.subsets,
      sv.2.subset_doc._id = sv.1 := by
    intro d hd
    rcases List.mem_map.mp hd with ⟨kv, hkv, hkvd⟩
    exact hkvd ▸ hpinv kv hkv
  have hvalsPop : ∀ (fid : String), ∀ d ∈ dictValues (dictPop prepared fid),
      ∀ sv ∈ d.subsets, sv.2.subset_doc._id = sv.1 := by
    intro fid d hd
    rcases List.mem_map.mp hd with ⟨kv, hkv, hkvd⟩
    exact hkvd ▸ hpinv kv (mem_dictPop hkv)
  cases cfid with
  | none =>
      obtain ⟨res, hres⟩ := loadLinkedEntries_ok lr bp lcp lbn
        (dictValues prepared) [] hvals
      simp [finishBuild, hres, exceptOk]
  | some fid =>
      by_cases hc : (decide (fid ≠ "") && dictContains prepared fid) = true
      · have hne : ¬fid = "" := by
          rw [Bool.and_eq_true] at hc
          simpa using hc.1
        have hcon : dictContains prepared fid = true := by
          rw [Bool.and_eq_true] at hc
          exact hc.2
        cases hget : dictGet prepared fid with
        | none =>
            exfalso
            unfold dictContains at hcon
            rw [hget] at hcon
            simp at hcon
        | some data =>
            have hdinv : ∀ sv ∈ data.subsets, sv.2.subset_doc._id = sv.1 :=
              fun sv hsv => hpinv (fid, data) (mem_of_dictGet_eq_some hget) sv hsv
            have hlc := lcbad_ok lr bp data ccp lbn hdinv
            rcases (exceptOk_iff _).mp hlc with ⟨x, hx⟩
            cases x with
            | none =>
                obtain ⟨res, hres⟩ := loadLinkedEntries_ok lr bp lcp lbn
                  (dictValues (dictPop prepared fid)) [] (hvalsPop fid)
                simp [finishBuild, hne, hcon, hget, hx, hres, exceptOk]
            | some ld =>
                obtain ⟨res, hres⟩ := loadLinkedEntries_ok lr bp lcp lbn
                  (dictValues (dictPop prepared fid)) [ld] (hvalsPop fid)
                simp [finishBuild, hne, hcon, hget, hx, hres, exceptOk]
      · have hcp : ¬(¬fid = "" ∧ dictContains prepared fid = true) := by
          simpa using hc
        obtain ⟨res, hres⟩ := loadLinkedEntries_ok lr bp lcp lbn
          (dictValues prepared) [] hvals
        simp [finishBuild, hcp, hres, exceptOk]

theorem build_from_collect_ok (env : BuildEnv) (bp : TaskPreset)
    (ccp lcp : List Profile) (lbn : PyDict String LoaderPlugin)
    (asset_docs : List AssetDoc) (cfid : Option String) :
    exceptOk (match (_collect_last_version_repres env asset_docs).1 with
      | .error e => (.error e : Except String (List LoadedData))
      | .ok prepared =>
          finishBuild env.load_result bp ccp lcp lbn prepared cfid) = true := by
  obtain ⟨prepared, hcol, hpinv⟩ := collect_props env asset_docs
  rw [hcol]
  exact finishBuild_ok env.load_result bp ccp lcp lbn prepared cfid hpinv

theorem build_workfile_isOk_of_nodup (env : BuildEnv)
    (h : (enabledLoaderNames env.discovered_loaders).Nodup) :
    exceptOk (build_workfile env) = true := by
  cases hga : get_asset_by_name env env.current_folder_path with
  | none => simp [build_workfile, hga, exceptOk]
  | some cad =>
      obtain ⟨lbn, hprep⟩ := (exceptOk_iff _).mp
        ((prepare_loaders_ok_iff env.discovered_loaders []).mpr
          ⟨h, by simp [dictKeys]⟩)
      by_cases hlbn : lbn.isEmpty = true
      · simp [build_workfile, hga, hprep, hlbn, exceptOk]
      · cases hbp : get_build_presets env cad with
        | none => simp [build_workfile, hga, hprep, hlbn, hbp, exceptOk]
        | some bp =>
            by_cases hccE : bp.current_context.isEmpty = true
            · by_cases hlaE : bp.linked_assets.isEmpty = true
              · simp [build_workfile, hga, hprep, hlbn, hbp, hccE, hlaE, exceptOk]
              · by_cases hl : (get_linked_assets env).isEmpty = true
                · simp [build_workfile, hga, hprep, hlbn, hbp, hccE, hlaE, hl,
                    exceptOk]
                · have htail := build_from_collect_ok env bp bp.current_context
                    bp.linked_assets lbn (get_linked_assets env) none
                  simpa [build_workfile, hga, hprep, hlbn, hbp, hccE, hlaE, hl,
                    exceptOk] using htail
            · have htail := build_from_collect_ok env bp bp.current_context
                bp.linked_assets lbn
                ([cad] ++ (if bp.linked_assets.isEmpty then []
                  else get_linked_assets env)) (some cad._id)
              simpa [build_workfile, hga, hprep, hlbn, hbp, hccE,
                exceptOk] using htail

theorem build_workfile_error_of_dup (env : BuildEnv) (cad : AssetDoc)
    (hga : get_asset_by_name env env.current_folder_path = some cad)
    (hdup : ¬ (enabledLoaderNames env.discovered_loaders).Nodup) :
    exceptOk (build_workfile env) = false := by
  cases hprep : prepare_loaders env.discovered_loaders [] with
  | ok lbn =>
      exfalso
      have hok : exceptOk (prepare_loaders env.discovered_loaders []) = true := by
        rw [hprep]; rfl
      exact hdup ((prepare_loaders_ok_iff env.discovered_loaders []).mp hok).1
  | error e =>
      simp [build_workfile, hga, hprep, exceptOk]

/-- **C7.**  `build_workfile` raises exactly when the current folder is
found and two enabled discovered loaders share a name — the abort happens
during loader discovery, before any later stage can matter — and the
empty-set stages degrade to `ok []`: with no enabled loaders, or with no
`workfile_builder.profiles` configured, the build returns the containers
accumulated so far (the empty list) without raising. -/
theorem claim_C7 (env : BuildEnv) :
    ((exceptOk (build_workfile env) = false) ↔
      ((get_asset_by_name env env.current_folder_path).isSome = true ∧
        ¬ (enabledLoaderNames env.discovered_loaders).Nodup))
    ∧ ((get_asset_by_name env env.current_folder_path).isSome = true →
        enabledLoaderNames env.discovered_loaders = [] →
        build_workfile env = .ok [])
    ∧ ((get_asset_by_name env env.current_folder_path).isSome = true →
        (enabledLoaderNames env.discovered_loaders).Nodup →
        env.builder_profiles = [] →
        build_workfile env = .ok []) := by
  refine ⟨⟨?_, ?_⟩, ?_, ?_⟩
  · intro herr
    constructor
    · cases hga : get_asset_by_name env env.current_folder_path with
      | none =>
          exfalso
          have hok : build_workfile env = .ok [] := by
            simp [build_workfile, hga]
          rw [hok] at herr
          simp [exceptOk] at herr
      | some cad => rfl
    · intro hnd
      have hok := build_workfile_isOk_of_nodup env hnd
      rw [hok] at herr
      simp at herr
  · rintro ⟨hsome, hdup⟩
    cases hga : get_asset_by_name env env.current_folder_path with
    | none => rw [hga] at hsome; simp at hsome
    | some cad => exact build_workfile_error_of_dup env cad hga hdup
  · intro hsome hnone
    cases hga : get_asset_by_name env env.current_folder_path with
    | none => rw [hga] at hsome; simp at hsome
    | some cad =>
        have hprep := prepare_loaders_no_enabled env.discovered_loaders [] hnone
        simp [build_workfile, hga, hprep]
  · intro hsome hnd hprofs
    cases hga : get_asset_by_name env env.current_folder_path with
    | none => rw [hga] at hsome; simp at hsome
    | some cad =>
        obtain ⟨lbn, hprep⟩ := (exceptOk_iff _).mp
          ((prepare_loaders_ok_iff env.discovered_loaders []).mpr
            ⟨hnd, by simp [dictKeys]⟩)
        have hbp : get_build_presets env cad = none := by
          simp [get_build_presets, hprofs]
        by_cases hlbn : lbn.isEmpty = true
        · simp [build_workfile, hga, hprep, hlbn]
        · simp [build_workfile, hga, hprep, hlbn, hbp]

/-- Witness for the hypothesis-bearing parts of `claim_C7`: at `envW` with
no discovered loaders the build degrades to `ok []`, and at `envW` with no
configured profiles it also degrades to `ok []`. -/
theorem claim_C7_witness :
    build_workfile { envW with discovered_loaders := [] } = .ok []
    ∧ build_workfile { envW with builder_profiles := [] } = .ok [] :=
  ⟨(claim_C7 { envW with discovered_loaders := [] }).2.1 (by decide) rfl,
   (claim_C7 { envW with builder_profiles := [] }).2.2 (by decide) (by decide) rfl⟩

end AyonBuildWorkfile
